import Mathlib

/-!
Verification of the chess rules engine in the `model` package
(`coordinate.py`, `pieces.py`, `moves.py`, `board_state.py`,
`chess_game.py`).

The Python classes are embedded shallowly:

* `Coordinate` keeps its `row`/`col` fields as `Int` (Python ints), with
  `Coordinate.from_coords` becoming `Coordinate.fromCoords?` (the
  `InvalidCoordinateError` exception becomes `none`).
* `Piece` subclasses become a `PieceType` tag plus a color; the mutable
  `Pawn._has_moved` flag is a `hasMoved` field (only ever set for pawns,
  `false` for every freshly constructed piece, exactly as in the source).
* `BoardState` becomes a structure; its `_grid` is the same
  list-of-rows-of-optional-pieces, indexed `grid[row-1][col-1]`.
* Exceptions that the engine raises while executing moves are modelled with
  `Except ExecErr`: `InvalidMoveException` is `.invalidMove`, an uncaught
  `InvalidCoordinateError` is `.invalidCoord`, and an `IndexError` from
  indexing an empty history is `.indexError`.  `Piece.get_moves` catches
  only `InvalidMoveException`, so `.invalidCoord` propagates, as in Python.
* Mutation is modelled by returning the updated copy; since `make_move`
  always deep-copies the state first, this is faithful.
-/

deriving instance DecidableEq for Except

namespace Chess

/-- Tag distinguishing the six `Piece` subclasses of `pieces.py`. -/
inductive PieceType
  | king | queen | rook | bishop | knight | pawn
deriving DecidableEq

/-- A piece: its subclass tag, its `_color` (`true` = white) and, for pawns,
the `_has_moved` flag.  For the other piece kinds the flag is carried along
but never read nor written, matching the Python classes which simply do not
have the attribute. -/
structure Piece where
  ptype : PieceType
  white : Bool
  hasMoved : Bool
deriving DecidableEq

/-- `Piece.__eq__`: two pieces are equal iff same subclass and same color
(the pawn `_has_moved` flag does not participate). -/
def Piece.same (a b : Piece) : Bool :=
  decide (a.ptype = b.ptype) && decide (a.white = b.white)

/-- `Coordinate`: a `(row, col)` pair of Python ints. -/
structure Coordinate where
  row : Int
  col : Int
deriving DecidableEq

/-- `Coordinate.is_valid`. -/
def Coordinate.isValid (c : Coordinate) : Bool :=
  decide ((1 ≤ c.row ∧ c.row ≤ 8) ∧ (1 ≤ c.col ∧ c.col ≤ 8))

/-- `Coordinate.from_coords`; the `InvalidCoordinateError` raise is `none`. -/
def Coordinate.fromCoords? (row col : Int) : Option Coordinate :=
  if (1 ≤ row ∧ row ≤ 8) ∧ (1 ≤ col ∧ col ≤ 8) then some ⟨row, col⟩ else none

/-- Index of a file letter in `"abcdefgh"`, plus one (so `'a' ↦ 1`);
`none` models the `ValueError` from `str.index` when absent. -/
def fileIndex? (c : Char) : Option Int :=
  match c with
  | 'a' => some 1
  | 'b' => some 2
  | 'c' => some 3
  | 'd' => some 4
  | 'e' => some 5
  | 'f' => some 6
  | 'g' => some 7
  | 'h' => some 8
  | _ => none

/-- Value of a decimal digit character; `none` models the `ValueError`
raised by `int(...)` on a non-digit. -/
def digitVal? (c : Char) : Option Int :=
  if '0' ≤ c ∧ c ≤ '9' then some ((c.toNat : Int) - 48) else none

/-- `Coordinate.from_notation`: two characters, lower-cased file letter then
rank digit, range checked by `from_coords`; any failure raises
`InvalidCoordinateError` (= `none`). -/
def Coordinate.ofName? (s : String) : Option Coordinate :=
  match s.toList with
  | [f, d] => do
      let col ← fileIndex? f.toLower
      let row ← digitVal? d
      Coordinate.fromCoords? row col
  | _ => none

/-- `Coordinate.to_notation`: file letter followed by the rank digit.  Only
ever applied to valid coordinates in the source. -/
def Coordinate.sqName (c : Coordinate) : String :=
  ⟨[Char.ofNat (96 + c.col).toNat, Char.ofNat (48 + c.row).toNat]⟩

/-- The five `Move` subclasses of `moves.py`.  The two castle moves store
only their color (their `start`/`target` are derived), `PawnPromotion`
stores the class to promote to. -/
inductive Move
  | basic (start target : Coordinate)
  | kingsideCastle (white : Bool)
  | queensideCastle (white : Bool)
  | pawnPromotion (start target : Coordinate) (promoteTo : PieceType)
  | enPassant (start target : Coordinate)
deriving DecidableEq

/-- The `start` property of a move (for castles, computed from the color as
in the `KingsideCastle`/`QueensideCastle` constructors). -/
def Move.start : Move → Coordinate
  | .basic s _ => s
  | .kingsideCastle w => ⟨if w then 1 else 8, 5⟩
  | .queensideCastle w => ⟨if w then 1 else 8, 5⟩
  | .pawnPromotion s _ _ => s
  | .enPassant s _ => s

/-- The `target` property of a move. -/
def Move.target : Move → Coordinate
  | .basic _ t => t
  | .kingsideCastle w => ⟨if w then 1 else 8, 7⟩
  | .queensideCastle w => ⟨if w then 1 else 8, 3⟩
  | .pawnPromotion _ t _ => t
  | .enPassant _ t => t

/-- Exceptions crossing the boundaries the claims talk about:
`InvalidMoveException`, an uncaught `InvalidCoordinateError`, and the
`IndexError` raised by reading the current state of an empty game. -/
inductive ExecErr
  | invalidMove
  | invalidCoord
  | indexError
deriving DecidableEq

/-- `BoardState`, with all `__slots__` fields.  `_en_passant_target` is kept
as the raw notation string exactly as in the source (it is compared as a
string both in `__eq__` and in `parse_move`). -/
structure BoardState where
  grid : List (List (Option Piece))
  turn : Bool
  wKingside : Bool
  wQueenside : Bool
  bKingside : Bool
  bQueenside : Bool
  enPassantTarget : Option String
  setPassantThisTurn : Bool
  halfmoveClock : Nat
  fullmoveNumber : Nat
deriving DecidableEq

/-- `BoardState.get_piece`: `self._grid[row - 1][col - 1]`.  Every call site
modelled here passes coordinates already validated to lie in 1..8, so the
out-of-range guard (Python would raise `IndexError` / wrap negatively)
is never reached with a different answer. -/
def getPiece (b : BoardState) (row col : Int) : Option Piece :=
  if (1 ≤ row ∧ row ≤ 8) ∧ (1 ≤ col ∧ col ≤ 8) then
    ((b.grid.get? (row - 1).toNat).bind fun r => r.get? (col - 1).toNat).join
  else none

/-- Replace entry `(r, c)` (0-based) of a grid. -/
def setGrid (g : List (List (Option Piece))) (r c : Nat) (p : Option Piece) :
    List (List (Option Piece)) :=
  match g.get? r with
  | some rowL => g.set r (rowL.set c p)
  | none => g

/-- `BoardState.put`: place `p` at the (valid) coordinate `loc`. -/
def putPiece (b : BoardState) (loc : Coordinate) (p : Option Piece) : BoardState :=
  { b with grid := setGrid b.grid (loc.row - 1).toNat (loc.col - 1).toNat p }

/-- Row-major list of all 64 board coordinates `(row, col)`, rows 1..8 then
cols 1..8, the exact scan order of the `for row in range(8): for col in
range(8)` loops. -/
def allCoords : List (Int × Int) :=
  (List.range 8).flatMap fun r => (List.range 8).map fun c => ((r : Int) + 1, (c : Int) + 1)

/-- The squares strictly between `start` and `target` are all empty.  This is
the collision `while` loop shared (textually) by `Rook.can_attack` and
`Bishop.can_attack`: the slope is `diff // abs(diff)` per axis (0 when the
axis does not move) and the walk stops on reaching `target`.  Both callers
only run it on straight or exactly diagonal pairs, where the walk visits
`max |Δrow| |Δcol| - 1` intermediate squares. -/
def betweenClear (b : BoardState) (start target : Coordinate) : Bool :=
  let rowDiff : Int := (target.row - start.row).natAbs
  let colDiff : Int := (target.col - start.col).natAbs
  let rowSlope : Int := if rowDiff = 0 then 0 else (target.row - start.row) / rowDiff
  let colSlope : Int := if colDiff = 0 then 0 else (target.col - start.col) / colDiff
  let steps : Nat := (max (target.row - start.row).natAbs (target.col - start.col).natAbs) - 1
  (List.range steps).all fun k =>
    getPiece b (start.row + ((k : Int) + 1) * rowSlope) (start.col + ((k : Int) + 1) * colSlope)
      = none

/-- `Rook.can_attack`: same row xor same column, and no piece strictly
between. -/
def rookAttack (b : BoardState) (start target : Coordinate) : Bool :=
  if decide (start.col = target.col) = decide (start.row = target.row) then false
  else betweenClear b start target

/-- `Bishop.can_attack`: both deltas equal in absolute value and nonzero,
and no piece strictly between. -/
def bishopAttack (b : BoardState) (start target : Coordinate) : Bool :=
  let colDiff := (target.col - start.col).natAbs
  let rowDiff := (target.row - start.row).natAbs
  if rowDiff = 0 ∨ colDiff ≠ rowDiff then false
  else betweenClear b start target

/-- `Pawn._get_direction`: `1` for white, `-1` for black. -/
def pawnDirection (p : Piece) : Int :=
  if p.white then 1 else -1

/-- `Piece.can_attack` of each subclass.  `board`/`start`/`target` are never
`None` at the call sites modelled here, so those early-`False` guards are
handled where they matter (`in_check` with a missing king, see `inCheck`). -/
def Piece.canAttack (p : Piece) (b : BoardState) (start target : Coordinate) : Bool :=
  match p.ptype with
  | .king =>
      let dr := (start.row - target.row).natAbs
      let dc := (start.col - target.col).natAbs
      if dr = 0 ∧ dc = 0 then false else decide (dr ≤ 1) && decide (dc ≤ 1)
  | .queen => rookAttack b start target || bishopAttack b start target
  | .rook => rookAttack b start target
  | .bishop => bishopAttack b start target
  | .knight =>
      let cd := (start.col - target.col).natAbs
      let rd := (start.row - target.row).natAbs
      decide ((cd = 1 ∧ rd = 2) ∨ (cd = 2 ∧ rd = 1))
  | .pawn =>
      decide ((start.col - target.col).natAbs = 1)
        && decide (start.row + pawnDirection p = target.row)

/-- `BoardState.under_attack`: some piece of `color` can attack `target`.
The Python double loop early-returns on the first attacker; for the Bool
result this is `List.any` over the same row-major scan. -/
def underAttack (b : BoardState) (target : Coordinate) (color : Bool) : Bool :=
  allCoords.any fun rc =>
    match getPiece b rc.1 rc.2 with
    | some p => decide (p.white = color) && p.canAttack b ⟨rc.1, rc.2⟩ target
    | none => false

/-- `BoardState.count_attackers`: how many pieces of `color` attack `target`. -/
def countAttackers (b : BoardState) (target : Coordinate) (color : Bool) : Nat :=
  allCoords.countP fun rc =>
    match getPiece b rc.1 rc.2 with
    | some p => decide (p.white = color) && p.canAttack b ⟨rc.1, rc.2⟩ target
    | none => false

/-- `BoardState.find_king`: first square (row-major) holding a king of the
given color. -/
def findKing (b : BoardState) (color : Bool) : Option Coordinate :=
  (allCoords.find? fun rc =>
    match getPiece b rc.1 rc.2 with
    | some p => decide (p.ptype = PieceType.king) && decide (p.white = color)
    | none => false).map fun rc => ⟨rc.1, rc.2⟩

/-- `BoardState.in_check` for an explicit color.  When `find_king` returns
`None`, Python calls `under_attack(None, ...)`, and every subclass's
`can_attack` returns `False` on a `None` target, so `in_check` is `False`;
that is the `none` branch here. -/
def inCheck (b : BoardState) (color : Bool) : Bool :=
  match findKing b color with
  | none => false
  | some k => underAttack b k (!color)

/-- `BoardState.is_valid_state`: the side that just moved is not in check. -/
def isValidState (b : BoardState) : Bool :=
  !(inCheck b (!b.turn))

/-- `BoardState.can_castle_kingside`: stored right, king square `(rank, 5)`
not attacked, and `(rank, 6)`, `(rank, 7)` each empty and unattacked. -/
def canCastleKingside (b : BoardState) : Bool :=
  let available := if b.turn then b.wKingside else b.bKingside
  let rank : Int := if b.turn then 1 else 8
  if !available then false
  else if underAttack b ⟨rank, 5⟩ (!b.turn) then false
  else
    [(⟨rank, 6⟩ : Coordinate), ⟨rank, 7⟩].all fun t =>
      decide (getPiece b t.row t.col = none) && !(underAttack b t (!b.turn))

/-- `BoardState.can_castle_queenside`.  Note: the source tests
`under_attack(Coordinate.from_coords(5, rank), ...)` — row 5, column `rank`
— for the "king in check" condition (its arguments are reversed relative to
the kingside version), and that is embedded verbatim here. -/
def canCastleQueenside (b : BoardState) : Bool :=
  let available := if b.turn then b.wQueenside else b.bQueenside
  let rank : Int := if b.turn then 1 else 8
  if !available then false
  else if underAttack b ⟨5, rank⟩ (!b.turn) then false
  else
    [(⟨rank, 4⟩ : Coordinate), ⟨rank, 3⟩, ⟨rank, 2⟩].all fun t =>
      decide (getPiece b t.row t.col = none) && !(underAttack b t (!b.turn))

/-- `BoardState.en_passant_coords`: convert the stored notation string; a
malformed string raises `InvalidCoordinateError` (uncaught at the call
sites the claims exercise). -/
def enPassantCoordsE (b : BoardState) : Except ExecErr (Option Coordinate) :=
  match b.enPassantTarget with
  | none => .ok none
  | some s =>
      match Coordinate.ofName? s with
      | some c => .ok (some c)
      | none => .error .invalidCoord

/-- `BoardState.set_en_passant`: store the notation string (or clear) and
remember that this turn set it. -/
def setEnPassant (b : BoardState) (c : Option Coordinate) : BoardState :=
  { b with enPassantTarget := c.map Coordinate.sqName, setPassantThisTurn := true }

/-- `BasicMove.execute`.  Returns the updated board together with the
`_was_capture` and `_was_pawn` flags the move records for
`_update_state`.  The midpoint `from_coords` of the en-passant bookkeeping
can in principle raise `InvalidCoordinateError` (modelled by
`.invalidCoord`); it never does, because both rows are already checked to
lie in 1..8 and differ by exactly 2. -/
def basicExecute (b : BoardState) (start target : Coordinate) :
    Except ExecErr (BoardState × Bool × Bool) :=
  if !start.isValid then .error .invalidMove
  else if !target.isValid then .error .invalidMove
  else
    match getPiece b start.row start.col with
    | none => .error .invalidMove
    | some piece =>
      if piece.white ≠ b.turn then .error .invalidMove
      else
        match
          (match getPiece b target.row target.col with
           | some tp =>
               if tp.white = b.turn then Except.error ExecErr.invalidMove
               else Except.ok true
           | none => Except.ok false) with
        | .error e => .error e
        | .ok wasCapture =>
          let wasPawn := decide (piece.ptype = PieceType.pawn)
          let piece := if wasPawn then { piece with hasMoved := true } else piece
          match
            (if wasPawn ∧ (start.row - target.row).natAbs = 2 then
              match Coordinate.fromCoords? ((start.row + target.row) / 2) start.col with
              | some mid => Except.ok (setEnPassant b (some mid))
              | none => Except.error ExecErr.invalidCoord
            else Except.ok b) with
          | .error e => .error e
          | .ok b =>
            .ok (putPiece (putPiece b target (some piece)) start none,
              wasCapture, wasPawn)

/-- `KingsideCastle.execute` (flags: not a capture, not a pawn advance). -/
def kingsideCastleExecute (b : BoardState) (color : Bool) :
    Except ExecErr (BoardState × Bool × Bool) :=
  if !(canCastleKingside b) ∨ color ≠ b.turn then .error .invalidMove
  else
    let rank : Int := if b.turn then 1 else 8
    let king := getPiece b rank 5
    let rook := getPiece b rank 8
    let b := putPiece b ⟨rank, 7⟩ king
    let b := putPiece b ⟨rank, 6⟩ rook
    let b := putPiece b ⟨rank, 8⟩ none
    let b := putPiece b ⟨rank, 5⟩ none
    .ok (b, false, false)

/-- `QueensideCastle.execute`. -/
def queensideCastleExecute (b : BoardState) (color : Bool) :
    Except ExecErr (BoardState × Bool × Bool) :=
  if !(canCastleQueenside b) ∨ color ≠ b.turn then .error .invalidMove
  else
    let rank : Int := if b.turn then 1 else 8
    let king := getPiece b rank 5
    let rook := getPiece b rank 1
    let b := putPiece b ⟨rank, 3⟩ king
    let b := putPiece b ⟨rank, 4⟩ rook
    let b := putPiece b ⟨rank, 5⟩ none
    let b := putPiece b ⟨rank, 1⟩ none
    .ok (b, false, false)

/-- `PawnPromotion.execute` (always a pawn advance; `promote_to(color)`
builds a fresh, never-moved piece of the mover's color). -/
def promotionExecute (b : BoardState) (start target : Coordinate)
    (promoteTo : PieceType) : Except ExecErr (BoardState × Bool × Bool) :=
  if !(start.isValid && target.isValid) then .error .invalidMove
  else
    match getPiece b start.row start.col with
    | none => .error .invalidMove
    | some piece =>
      if piece.ptype ≠ PieceType.pawn ∨ piece.white ≠ b.turn then .error .invalidMove
      else
        match
          (match getPiece b target.row target.col with
           | some tp =>
               if tp.white = b.turn then Except.error ExecErr.invalidMove
               else Except.ok true
           | none => Except.ok false) with
        | .error e => .error e
        | .ok wasCapture =>
          .ok (putPiece (putPiece b target (some ⟨promoteTo, b.turn, false⟩)) start none,
            wasCapture, true)

/-- `EnPassant.execute` (always a capture and a pawn advance).  Reading
`en_passant_coords` may raise on a malformed stored string; the
`from_coords` for the captured pawn's square may raise when the target is
on the mover's first rank (never the case for generated moves). -/
def enPassantExecute (b : BoardState) (start target : Coordinate) :
    Except ExecErr (BoardState × Bool × Bool) :=
  if !(start.isValid && target.isValid) then .error .invalidMove
  else
    match enPassantCoordsE b with
    | .error e => .error e
    | .ok epc =>
      if epc ≠ some target then .error .invalidMove
      else
        match getPiece b start.row start.col with
        | none => .error .invalidMove
        | some piece =>
          if piece.ptype ≠ PieceType.pawn ∨ piece.white ≠ b.turn then .error .invalidMove
          else
            let b1 := putPiece (putPiece b target (some piece)) start none
            let otherRow := if b.turn then target.row - 1 else target.row + 1
            match Coordinate.fromCoords? otherRow target.col with
            | some oc => .ok (putPiece b1 oc none, true, true)
            | none => .error .invalidCoord

/-- `Move.execute` dispatch, with the post-execution `was_capture` /
`was_pawn_advance` flags. -/
def Move.execute (m : Move) (b : BoardState) :
    Except ExecErr (BoardState × Bool × Bool) :=
  match m with
  | .basic s t => basicExecute b s t
  | .kingsideCastle w => kingsideCastleExecute b w
  | .queensideCastle w => queensideCastleExecute b w
  | .pawnPromotion s t pt => promotionExecute b s t pt
  | .enPassant s t => enPassantExecute b s t

/-- `BoardState._update_castling`: a right is lost once the corresponding
home square no longer holds an unmoved-looking king/rook of the right
color. -/
def updateCastling (b : BoardState) : BoardState :=
  let wKingBad :=
    match getPiece b 1 5 with
    | none => true
    | some k => !k.white || decide (k.ptype ≠ PieceType.king)
  let wKRookBad :=
    match getPiece b 1 8 with
    | none => true
    | some r => !r.white || decide (r.ptype ≠ PieceType.rook)
  let wQRookBad :=
    match getPiece b 1 1 with
    | none => true
    | some r => !r.white || decide (r.ptype ≠ PieceType.rook)
  let b := if wKingBad || wKRookBad then { b with wKingside := false } else b
  let b := if wKingBad || wQRookBad then { b with wQueenside := false } else b
  let bKingBad :=
    match getPiece b 8 5 with
    | none => true
    | some k => k.white || decide (k.ptype ≠ PieceType.king)
  let bKRookBad :=
    match getPiece b 8 8 with
    | none => true
    | some r => r.white || decide (r.ptype ≠ PieceType.rook)
  let bQRookBad :=
    match getPiece b 8 1 with
    | none => true
    | some r => r.white || decide (r.ptype ≠ PieceType.rook)
  let b := if bKingBad || bKRookBad then { b with bKingside := false } else b
  if bKingBad || bQRookBad then { b with bQueenside := false } else b

/-- `BoardState._update_state`: toggle the turn, bump the fullmove number
after black's move, reset/advance the halfmove clock from the move's
capture/pawn-advance flags, refresh castling rights, and clear the
en-passant target unless this move just set one. -/
def updateState (b : BoardState) (wasCapture wasPawnAdvance : Bool) : BoardState :=
  let b := { b with turn := !b.turn }
  let b := if b.turn then { b with fullmoveNumber := b.fullmoveNumber + 1 } else b
  let b :=
    if wasCapture || wasPawnAdvance then { b with halfmoveClock := 0 }
    else { b with halfmoveClock := b.halfmoveClock + 1 }
  let b := updateCastling b
  let b := if !b.setPassantThisTurn then { b with enPassantTarget := none } else b
  { b with setPassantThisTurn := false }

/-- `BoardState.make_move`: execute on a copy, update bookkeeping, and
fail with `InvalidMoveException` unless the mover's king is safe. -/
def makeMove (b : BoardState) (m : Move) : Except ExecErr BoardState := do
  let (b', wasCapture, wasPawnAdvance) ← m.execute b
  let b'' := updateState b' wasCapture wasPawnAdvance
  if isValidState b'' then pure b'' else throw .invalidMove

/-- The sliding `while` loop of `Queen`/`Rook`/`Bishop.potential_moves`:
walk from `(row, col)` by `(dr, dc)` while on the board, stopping at the
first occupied square (which is included as a capture when it holds an
opponent piece).  The fuel is 8: starting inside the board the walk visits
at most 7 squares before the bounds check fails, and starting outside it
stops immediately, so fuel 8 reproduces the unbounded loop exactly. -/
def slideMoves (b : BoardState) (white : Bool) (start : Coordinate)
    (dr dc : Int) : Nat → Int → Int → List Move
  | 0, _, _ => []
  | fuel + 1, row, col =>
    if (1 ≤ row ∧ row ≤ 8) ∧ (1 ≤ col ∧ col ≤ 8) then
      match getPiece b row col with
      | some pc =>
          if pc.white = white then []
          else [Move.basic start ⟨row, col⟩]
      | none =>
          Move.basic start ⟨row, col⟩ ::
            slideMoves b white start dr dc fuel (row + dr) (col + dc)
    else []

/-- `King.potential_moves`: the eight neighbours that are on the board,
plus the castle moves when not currently in check. -/
def kingPotentialMoves (p : Piece) (b : BoardState) (start : Coordinate) : List Move :=
  let deltas : List (Int × Int) :=
    [(-1, -1), (-1, 0), (-1, 1), (0, -1), (0, 1), (1, -1), (1, 0), (1, 1)]
  let ms := deltas.filterMap fun d =>
    match Coordinate.fromCoords? (start.row + d.1) (start.col + d.2) with
    | some t => some (Move.basic start t)
    | none => none
  if !(inCheck b b.turn) then
    let ms := if canCastleKingside b then ms ++ [Move.kingsideCastle p.white] else ms
    if canCastleQueenside b then ms ++ [Move.queensideCastle p.white] else ms
  else ms

/-- `Queen.potential_moves`: slide along all eight directions (the Python
nested loop order over `(-1, 0, 1) × (-1, 0, 1)` skipping `(0, 0)`). -/
def queenPotentialMoves (p : Piece) (b : BoardState) (start : Coordinate) : List Move :=
  ([(-1, -1), (-1, 0), (-1, 1), (0, -1), (0, 1), (1, -1), (1, 0), (1, 1)] :
      List (Int × Int)).flatMap fun d =>
    slideMoves b p.white start d.1 d.2 8 (start.row + d.1) (start.col + d.2)

/-- `Rook.potential_moves`. -/
def rookPotentialMoves (p : Piece) (b : BoardState) (start : Coordinate) : List Move :=
  ([(1, 0), (0, 1), (-1, 0), (0, -1)] : List (Int × Int)).flatMap fun d =>
    slideMoves b p.white start d.1 d.2 8 (start.row + d.1) (start.col + d.2)

/-- `Bishop.potential_moves`. -/
def bishopPotentialMoves (p : Piece) (b : BoardState) (start : Coordinate) : List Move :=
  ([(-1, -1), (-1, 1), (1, -1), (1, 1)] : List (Int × Int)).flatMap fun d =>
    slideMoves b p.white start d.1 d.2 8 (start.row + d.1) (start.col + d.2)

/-- `Knight.potential_moves`: the eight L-shaped targets that are on the
board (loop order over `(-2, -1, 1, 2) × (-2, -1, 1, 2)` keeping the pairs
with distinct absolute values). -/
def knightPotentialMoves (_b : BoardState) (start : Coordinate) : List Move :=
  (([(-2), -1, 1, 2] : List Int).flatMap fun rd =>
    ([(-2), -1, 1, 2] : List Int).filterMap fun cd =>
      if rd.natAbs ≠ cd.natAbs then
        match Coordinate.fromCoords? (start.row + rd) (start.col + cd) with
        | some t => some (Move.basic start t)
        | none => none
      else none)

/-- `Pawn._ranks_to_promotion`. -/
def ranksToPromotion (p : Piece) (location : Coordinate) : Int :=
  if p.white then 8 - location.row else location.row - 1

/-- `Pawn._all_promotions`: one `PawnPromotion` per choice, in the source
order Knight, Bishop, Rook, Queen. -/
def allPromotions (start target : Coordinate) : List Move :=
  [Move.pawnPromotion start target PieceType.knight,
   Move.pawnPromotion start target PieceType.bishop,
   Move.pawnPromotion start target PieceType.rook,
   Move.pawnPromotion start target PieceType.queen]

/-- The diagonal-capture scan shared by `Pawn._find_promotions` and
`Pawn._find_basic_moves`: for `col_dir` in `(-1, 1)`, if the diagonal
square ahead is on the board (the `InvalidCoordinateError` is caught) and
holds an opponent piece, emit moves for it via `mk`. -/
def pawnDiagMoves (p : Piece) (b : BoardState) (start : Coordinate)
    (mk : Coordinate → List Move) : List Move :=
  ([(-1), 1] : List Int).flatMap fun colDir =>
    match Coordinate.fromCoords? (start.row + pawnDirection p) (start.col + colDir) with
    | some t =>
        match getPiece b t.row t.col with
        | some pc => if pc.white ≠ p.white then mk t else []
        | none => []
    | none => []

/-- `Pawn._find_promotions`: forward promotion when the square ahead is
empty, plus diagonal-capture promotions.  The unguarded `from_coords` for
the forward square would raise (`.invalidCoord`); with the pawn one rank
from promotion it always succeeds. -/
def pawnFindPromotions (p : Piece) (b : BoardState) (start : Coordinate) :
    Except ExecErr (List Move) :=
  match Coordinate.fromCoords? (start.row + pawnDirection p) start.col with
  | none => .error .invalidCoord
  | some t =>
      let fwd := if getPiece b t.row t.col = none then allPromotions start t else []
      .ok (fwd ++ pawnDiagMoves p b start (fun d => allPromotions start d))

/-- `Pawn._find_basic_moves`: one forward when the square ahead is empty
(then, still inside that branch, the unguarded `from_coords` two ahead and
the double push when the pawn has not moved and that square is empty too),
plus diagonal captures.  The two unguarded `from_coords` calls raise
`InvalidCoordinateError` (`.invalidCoord`) when the pawn stands on its
promotion rank — the `row 8` white / `row 1` black pawns that
`_ranks_to_promotion = 0` describes. -/
def pawnFindBasicMoves (p : Piece) (b : BoardState) (start : Coordinate) :
    Except ExecErr (List Move) :=
  let diag := pawnDiagMoves p b start (fun d => [Move.basic start d])
  match Coordinate.fromCoords? (start.row + pawnDirection p) start.col with
  | none => .error .invalidCoord
  | some t =>
      if getPiece b t.row t.col = none then
        match Coordinate.fromCoords? (start.row + 2 * pawnDirection p) start.col with
        | none => .error .invalidCoord
        | some t2 =>
            let dbl :=
              if !p.hasMoved ∧ getPiece b t2.row t2.col = none then
                [Move.basic start t2]
              else []
            .ok (Move.basic start t :: dbl ++ diag)
      else .ok diag

/-- `Pawn.potential_moves`: promotions when one rank away from the last
rank, basic moves otherwise, then the en-passant capture when the stored
target exists and the pawn attacks it (`can_attack` against a `None`
target is `False`, so a missing target adds nothing). -/
def pawnPotentialMoves (p : Piece) (b : BoardState) (start : Coordinate) :
    Except ExecErr (List Move) :=
  match
    (if ranksToPromotion p start = 1 then pawnFindPromotions p b start
     else pawnFindBasicMoves p b start) with
  | .error e => .error e
  | .ok base =>
    match enPassantCoordsE b with
    | .error e => .error e
    | .ok (some ep) =>
        if p.canAttack b start ep then .ok (base ++ [Move.enPassant start ep])
        else .ok base
    | .ok none => .ok base

/-- `Piece.potential_moves` dispatch. -/
def Piece.potentialMoves (p : Piece) (b : BoardState) (start : Coordinate) :
    Except ExecErr (List Move) :=
  match p.ptype with
  | .king => .ok (kingPotentialMoves p b start)
  | .queen => .ok (queenPotentialMoves p b start)
  | .rook => .ok (rookPotentialMoves p b start)
  | .bishop => .ok (bishopPotentialMoves p b start)
  | .knight => .ok (knightPotentialMoves b start)
  | .pawn => pawnPotentialMoves p b start

/-- The body of the `Piece.get_moves` loop: try the move on the board and
keep it when `make_move` succeeds; `InvalidMoveException` is caught and
the move dropped, any other exception propagates. -/
def getMovesStep (b : BoardState) (acc : List Move) (m : Move) :
    Except ExecErr (List Move) :=
  match makeMove b m with
  | .ok _ => pure (acc ++ [m])
  | .error .invalidMove => pure acc
  | .error e => .error e

/-- `Piece.get_moves`: filter `potential_moves` through trial execution. -/
def Piece.getMoves (p : Piece) (b : BoardState) (start : Coordinate) :
    Except ExecErr (List Move) := do
  let pm ← p.potentialMoves b start
  pm.foldlM (getMovesStep b) []

/-- `BoardState._any_legal_moves`: row-major scan for the first piece of the
side to move that has at least one legal move.  The scan stops as soon as
one is found, so later squares (which could raise) are not visited — the
recursion mirrors that early return. -/
def anyLegalAux (b : BoardState) : List (Int × Int) → Except ExecErr Bool
  | [] => .ok false
  | rc :: rest =>
      match getPiece b rc.1 rc.2 with
      | some p =>
          if p.white = b.turn then do
            let ms ← p.getMoves b ⟨rc.1, rc.2⟩
            if ms.length > 0 then pure true else anyLegalAux b rest
          else anyLegalAux b rest
      | none => anyLegalAux b rest

/-- `BoardState._any_legal_moves`. -/
def anyLegalMoves (b : BoardState) : Except ExecErr Bool :=
  anyLegalAux b allCoords

/-- `BoardState.is_checkmate`: in check with no legal moves.  The Python
`and` short-circuits, so `_any_legal_moves` only runs when in check. -/
def isCheckmate (b : BoardState) : Except ExecErr Bool :=
  if inCheck b b.turn then do
    let alm ← anyLegalMoves b
    pure (!alm)
  else pure false

/-- `BoardState.is_stalemate`: not in check, and no legal moves. -/
def isStalemate (b : BoardState) : Except ExecErr Bool :=
  if !(inCheck b b.turn) then do
    let alm ← anyLegalMoves b
    pure (!alm)
  else pure false

/-- `BoardState.is_fifty_move_rule`. -/
def isFiftyMoveRule (b : BoardState) : Bool :=
  decide (50 ≤ b.halfmoveClock)

/-- Python `list.__eq__` on one grid row, with `Piece.__eq__` on the
entries: lengths must agree and entries must match pairwise by piece type
and color (`None` equals only `None`). -/
def rowSame : List (Option Piece) → List (Option Piece) → Bool
  | [], [] => true
  | some p :: xs, some q :: ys => p.same q && rowSame xs ys
  | none :: xs, none :: ys => rowSame xs ys
  | _, _ => false

/-- `BoardState.__eq__`: same turn, same four castling rights, same
en-passant target string, and matching rows under `zip` (which truncates
to the shorter grid, exactly as Python's `zip` does).  The halfmove and
fullmove counters are not compared. -/
def boardSame (b1 b2 : BoardState) : Bool :=
  decide (b1.turn = b2.turn) &&
  (decide (b1.wKingside = b2.wKingside) && decide (b1.wQueenside = b2.wQueenside) &&
   decide (b1.bKingside = b2.bKingside) && decide (b1.bQueenside = b2.bQueenside)) &&
  decide (b1.enPassantTarget = b2.enPassantTarget) &&
  ((b1.grid.zip b2.grid).all fun rr => rowSame rr.1 rr.2)

/-- The early-exit scan of one row of `BoardState.insufficient_material`:
kings are skipped, a queen/rook/pawn aborts with `none` (the Python
`return False`), bishops and knights bump the per-color counters
`(wb, wn, bb, bn)`. -/
def countMinorsRow : Nat × Nat × Nat × Nat → List (Option Piece) →
    Option (Nat × Nat × Nat × Nat)
  | acc, [] => some acc
  | acc, none :: rest => countMinorsRow acc rest
  | acc, some p :: rest =>
      if p.ptype = PieceType.king then countMinorsRow acc rest
      else if p.ptype = PieceType.queen ∨ p.ptype = PieceType.rook ∨
          p.ptype = PieceType.pawn then none
      else if p.ptype = PieceType.bishop then
        if p.white then countMinorsRow (acc.1 + 1, acc.2.1, acc.2.2.1, acc.2.2.2) rest
        else countMinorsRow (acc.1, acc.2.1, acc.2.2.1 + 1, acc.2.2.2) rest
      else
        if p.white then countMinorsRow (acc.1, acc.2.1 + 1, acc.2.2.1, acc.2.2.2) rest
        else countMinorsRow (acc.1, acc.2.1, acc.2.2.1, acc.2.2.2 + 1) rest

/-- The full-grid scan of `insufficient_material`, row by row. -/
def countMinorsGrid : Nat × Nat × Nat × Nat → List (List (Option Piece)) →
    Option (Nat × Nat × Nat × Nat)
  | acc, [] => some acc
  | acc, row :: rest =>
      match countMinorsRow acc row with
      | none => none
      | some acc' => countMinorsGrid acc' rest

/-- `BoardState.insufficient_material`: any queen/rook/pawn forbids the
draw; otherwise both sides hold at most one minor piece, or one side holds
exactly two knights (and no bishop) against a side with no minors. -/
def insufficientMaterial (b : BoardState) : Bool :=
  match countMinorsGrid (0, 0, 0, 0) b.grid with
  | none => false
  | some (wb, wn, bb, bn) =>
      if wb + wn ≤ 1 ∧ bb + bn ≤ 1 then true
      else if wb = 0 ∧ wn = 2 ∧ bb + bn = 0 then true
      else if bb = 0 ∧ bn = 2 ∧ wb + wn = 0 then true
      else false

/-- `ChessGame`: the ordered list of board states. -/
structure ChessGame where
  states : List BoardState

/-- `ChessGame.current_state` (`self._states[-1]`); `none` stands for the
`IndexError` on an empty history. -/
def currentState? (g : ChessGame) : Option BoardState :=
  g.states.getLast?

/-- `ChessGame.threefold_repetition`: among the last `halfmove + 1` states
(`self._states[-halfmove - 1:]`, which Python clamps to the whole list
when shorter), at least three compare equal (`BoardState.__eq__`) to the
current state.  Python returns `True` or `None`; both behave as this Bool
under the `if` in `get_result`. -/
def threefoldRepetition (g : ChessGame) : Bool :=
  match currentState? g with
  | none => false
  | some cur =>
      decide (3 ≤
        (g.states.drop (g.states.length - (cur.halfmoveClock + 1))).countP
          fun s => boardSame s cur)

/-- `GameResult`: label, reason and white's score. -/
structure GameResult where
  rtype : String
  reason : String
  whiteScore : ℚ
deriving DecidableEq

/-- `ChessGame.get_result`: checkmate, fifty-move rule, stalemate,
threefold repetition, insufficient material, in that order, else `none`
(game not over). -/
def getResult (g : ChessGame) : Except ExecErr (Option GameResult) :=
  match currentState? g with
  | none => .error .indexError
  | some board => do
      let cm ← isCheckmate board
      if cm then
        if board.turn then pure (some ⟨"Black Won", "checkmate", 0⟩)
        else pure (some ⟨"White Won", "checkmate", 1⟩)
      else if isFiftyMoveRule board then
        pure (some ⟨"Draw", "fifty move rule", 1 / 2⟩)
      else do
        let sm ← isStalemate board
        if sm then pure (some ⟨"Draw", "stalemate", 1 / 2⟩)
        else if threefoldRepetition g then
          pure (some ⟨"Draw", "threefold repetition", 1 / 2⟩)
        else if insufficientMaterial board then
          pure (some ⟨"Draw", "insufficient material", 1 / 2⟩)
        else pure none

/-- `Piece.to_fen` character: uppercase for white, lowercase for black. -/
def pieceFen (p : Piece) : String :=
  match p.ptype, p.white with
  | .king, true => "K"
  | .king, false => "k"
  | .queen, true => "Q"
  | .queen, false => "q"
  | .rook, true => "R"
  | .rook, false => "r"
  | .bishop, true => "B"
  | .bishop, false => "b"
  | .knight, true => "N"
  | .knight, false => "n"
  | .pawn, true => "P"
  | .pawn, false => "p"

/-- One rank of `BoardState._board_to_fen`: pieces as letters, maximal runs
of empty squares as their decimal length (flushed before a piece and at
the end of the rank). -/
def rowFenAux : List (Option Piece) → Nat → String
  | [], 0 => ""
  | [], bc + 1 => toString (bc + 1)
  | none :: rest, bc => rowFenAux rest (bc + 1)
  | some p :: rest, 0 => pieceFen p ++ rowFenAux rest 0
  | some p :: rest, bc + 1 => toString (bc + 1) ++ pieceFen p ++ rowFenAux rest 0

/-- `BoardState._board_to_fen`: ranks 8 down to 1, joined with `/`. -/
def boardToFen (grid : List (List (Option Piece))) : String :=
  String.intercalate "/" (grid.reverse.map fun row => rowFenAux row 0)

/-- `BoardState.to_fen`: the six space-separated fields. -/
def toFen (b : BoardState) : String :=
  let castling :=
    (if b.wKingside then "K" else "") ++ (if b.wQueenside then "Q" else "") ++
    (if b.bKingside then "k" else "") ++ (if b.bQueenside then "q" else "")
  String.intercalate " "
    [boardToFen b.grid,
     if b.turn then "w" else "b",
     if castling = "" then "-" else castling,
     match b.enPassantTarget with
     | none => "-"
     | some s => s,
     toString b.halfmoveClock,
     toString b.fullmoveNumber]

/-- `Piece.from_fen`: pick the subclass by the uppercased character, color
by `isupper`; every freshly constructed piece (pawns included) has not
moved.  `none` models the `InvalidPieceException` raise. -/
def Piece.fromFen? (c : Char) : Option Piece :=
  let white := c.isUpper
  let u := c.toUpper
  if u = 'K' then some ⟨.king, white, false⟩
  else if u = 'Q' then some ⟨.queen, white, false⟩
  else if u = 'R' then some ⟨.rook, white, false⟩
  else if u = 'B' then some ⟨.bishop, white, false⟩
  else if u = 'N' then some ⟨.knight, white, false⟩
  else if u = 'P' then some ⟨.pawn, white, false⟩
  else none

/-- Errors of `BoardState.__init__`: too few fields (`IndexError`), an
unrecognized piece letter (`InvalidPieceException`), or `int()` applied to
a non-numeric string (`ValueError`). -/
inductive InitErr
  | fieldsMissing
  | invalidPiece
  | badInt
deriving DecidableEq

/-- One rank of `BoardState._board_from_fen`: letters become pieces, digit
characters append that many empty squares, anything else fails `int()`. -/
def rankFromFen (line : List Char) : Except InitErr (List (Option Piece)) :=
  match line with
  | [] => .ok []
  | c :: rest => do
      let tail ← rankFromFen rest
      if c.isAlpha then
        match Piece.fromFen? c with
        | some p => pure (some p :: tail)
        | none => throw .invalidPiece
      else
        match digitVal? c with
        | some n => pure (List.replicate n.toNat none ++ tail)
        | none => throw .badInt

/-- Python `str.split('/')` on a character list (empty pieces kept). -/
def splitOnSlash : List Char → List (List Char)
  | [] => [[]]
  | c :: rest =>
      let r := splitOnSlash rest
      if c = '/' then [] :: r
      else
        match r with
        | h :: t => (c :: h) :: t
        | [] => [[c]]

/-- `BoardState._board_from_fen`: split the placement field on `/`,
reverse (rank 1 first), and build each rank. -/
def boardFromFen (boardField : String) : Except InitErr (List (List (Option Piece))) :=
  ((splitOnSlash boardField.toList).reverse).mapM rankFromFen

/-- The state `BoardState.__init__` actually leaves behind.  Because the
class uses `__slots__` and the constructor only ever assigns `_turn` /
castling flags inside `if` branches with no `else`, those slots can end up
never assigned; reading such a slot raises `AttributeError`.  An `Option
Bool` that is `none` models an unassigned slot (when assigned, the
castling flags are only ever set to `True`). -/
structure RawBoardState where
  grid : List (List (Option Piece))
  turn : Option Bool
  wKingside : Option Bool
  wQueenside : Option Bool
  bKingside : Option Bool
  bQueenside : Option Bool
  enPassantTarget : Option String
  setPassantThisTurn : Bool
  halfmoveClock : Int
  fullmoveNumber : Int
deriving DecidableEq

/-- Python `str.split()` with no argument: runs of whitespace separate the
words, leading/trailing whitespace ignored. -/
def pyWords (s : String) : List String :=
  (s.toList.splitOnP fun c => c = ' ' ∨ c = '\t' ∨ c = '\n' ∨ c = '\r' ∨
      c = '\x0b' ∨ c = '\x0c').filterMap fun w =>
    if w = [] then none else some ⟨w⟩

/-- Python `int(...)` on a stripped decimal string with an optional sign. -/
def pyInt? (s : String) : Option Int :=
  match s.toList with
  | [] => none
  | '-' :: ds =>
      if ds ≠ [] ∧ ds.all fun c => '0' ≤ c ∧ c ≤ '9' then
        some (-(ds.foldl (fun acc c => acc * 10 + ((c.toNat : Int) - 48)) 0))
      else none
  | ds =>
      if ds.all (fun c => '0' ≤ c ∧ c ≤ '9') then
        some (ds.foldl (fun acc c => acc * 10 + ((c.toNat : Int) - 48)) 0)
      else none

/-- `BoardState.__init__` from a FEN record: board field, active color
(`_turn` stays unassigned for anything but `w`/`b`), castling availability
(each flag assigned `True` only when its letter occurs; `-` or a missing
letter leaves the slot unassigned), en-passant target (the raw string, or
`None` for `-`), halfmove clock, fullmove number. -/
def initFen (fen : String) : Except InitErr RawBoardState :=
  match pyWords fen with
  | f0 :: f1 :: f2 :: f3 :: f4 :: f5 :: _ => do
      let grid ← boardFromFen f0
      let turn : Option Bool :=
        if f1 = "w" then some true else if f1 = "b" then some false else none
      let wk := if f2.toList.contains 'K' then some true else none
      let bk := if f2.toList.contains 'k' then some true else none
      let wq := if f2.toList.contains 'Q' then some true else none
      let bq := if f2.toList.contains 'q' then some true else none
      let ep := if f3 = "-" then none else some f3
      let hm ←
        match pyInt? f4 with
        | some n => pure n
        | none => throw .badInt
      let fm ←
        match pyInt? f5 with
        | some n => pure n
        | none => throw .badInt
      pure ⟨grid, turn, wk, wq, bk, bq, ep, false, hm, fm⟩
  | _ => throw .fieldsMissing

/-- `BoardState.to_fen` run on a freshly parsed state: reading `_turn` or
any castling flag whose slot was never assigned raises `AttributeError`,
modelled by `none`. -/
def rawToFen? (r : RawBoardState) : Option String := do
  let turn ← r.turn
  let wk ← r.wKingside
  let wq ← r.wQueenside
  let bk ← r.bKingside
  let bq ← r.bQueenside
  let castling :=
    (if wk then "K" else "") ++ (if wq then "Q" else "") ++
    (if bk then "k" else "") ++ (if bq then "q" else "")
  some (String.intercalate " "
    [boardToFen r.grid,
     if turn then "w" else "b",
     if castling = "" then "-" else castling,
     match r.enPassantTarget with
     | none => "-"
     | some s => s,
     toString r.halfmoveClock,
     toString r.fullmoveNumber])

/-- `BoardState.moves_with_target`: all legal moves of the side to move
(optionally restricted to one piece type) landing on `target`, gathered in
row-major scan order.  Exceptions from `get_moves` propagate. -/
def movesWithTargetStep (b : BoardState) (target : Coordinate)
    (classinfo : Option PieceType) (acc : List Move) (rc : Int × Int) :
    Except ExecErr (List Move) :=
  match getPiece b rc.1 rc.2 with
  | some p =>
      if p.white = b.turn ∧ (classinfo = none ∨ classinfo = some p.ptype) then
        match p.getMoves b ⟨rc.1, rc.2⟩ with
        | .error e => .error e
        | .ok ms => .ok (acc ++ ms.filter fun m => m.target = target)
      else .ok acc
  | none => .ok acc

/-- `BoardState.moves_with_target`, the fold over the 64 squares. -/
def movesWithTarget (b : BoardState) (target : Coordinate)
    (classinfo : Option PieceType) : Except ExecErr (List Move) :=
  allCoords.foldlM (movesWithTargetStep b target classinfo) []

/-- `BoardState._process_match`: keep the candidate moves whose start
square matches the required row/column; exactly one survivor is returned,
zero or several give `None`. -/
def processMatch (b : BoardState) (target : Coordinate) (pt : PieceType)
    (requiredRow requiredCol : Option Int) : Except ExecErr (Option Move) :=
  match movesWithTarget b target (some pt) with
  | .error e => .error e
  | .ok candidates =>
  let valid := candidates.filter fun m =>
    (match requiredRow with
     | none => true
     | some r => decide (m.start.row = r)) &&
    (match requiredCol with
     | none => true
     | some c => decide (m.start.col = c))
  match valid with
  | [m] => .ok (some m)
  | _ => .ok none

/-- `BoardState._process_promotion_match`: like `_process_match` but only
`PawnPromotion` moves with the demanded promotion piece (and source
column) survive. -/
def processPromotionMatch (b : BoardState) (target : Coordinate)
    (promoteTo : PieceType) (requiredCol : Option Int) :
    Except ExecErr (Option Move) :=
  match movesWithTarget b target (some PieceType.pawn) with
  | .error e => .error e
  | .ok candidates =>
  let valid := candidates.filter fun m =>
    match m with
    | .pawnPromotion s _ pr =>
        decide (pr = promoteTo) &&
        (match requiredCol with
         | none => true
         | some c => decide (s.col = c))
    | _ => false
  match valid with
  | [m] => .ok (some m)
  | _ => .ok none

/-- Whitespace for Python's `str.strip()` and the `\s` regex class
(restricted to the ASCII whitespace characters). -/
def isPyWs (c : Char) : Bool :=
  decide (c = ' ' ∨ c = '\t' ∨ c = '\n' ∨ c = '\r' ∨ c = '\x0b' ∨ c = '\x0c')

/-- Python `str.strip()`. -/
def pyStrip (cs : List Char) : List Char :=
  ((cs.dropWhile isPyWs).reverse.dropWhile isPyWs).reverse

/-- Python `str.rstrip("#+")`. -/
def pyRstripCheck (cs : List Char) : List Char :=
  (cs.reverse.dropWhile fun c => decide (c = '#' ∨ c = '+')).reverse

/-- Greedy `\s*`.  In every pattern of `parse_move` the token after `\s*`
is never itself whitespace, so the greedy match is the only one the regex
engine can use. -/
def skipWs (cs : List Char) : List Char :=
  cs.dropWhile isPyWs

/-- Greedy `[x-]?`.  The token that follows is always a square, a piece
letter or `=`, never `x` or `-`, so consuming the separator when present
is again the only viable alternative. -/
def parseSep : List Char → List Char
  | 'x' :: rest => rest
  | '-' :: rest => rest
  | cs => cs

/-- Greedy `=?` (same determinism argument). -/
def parseEq : List Char → List Char
  | '=' :: rest => rest
  | cs => cs

/-- One `[a-h][1-8]` group: the coordinate it denotes (row = digit,
col = letter index) and the rest of the input. -/
def parseSquare : List Char → Option (Coordinate × List Char)
  | f :: d :: rest =>
      if ('a' ≤ f ∧ f ≤ 'h') ∧ ('1' ≤ d ∧ d ≤ '8') then
        some (⟨(d.toNat : Int) - 48, (f.toNat : Int) - 96⟩, rest)
      else none
  | _ => none

/-- One `[a-h]` file group, as the 1-based column. -/
def parseFile : List Char → Option (Int × List Char)
  | f :: rest => if 'a' ≤ f ∧ f ≤ 'h' then some (((f.toNat : Int) - 96), rest) else none
  | _ => none

/-- One `[1-8]` rank digit group. -/
def parseRank : List Char → Option (Int × List Char)
  | d :: rest => if '1' ≤ d ∧ d ≤ '8' then some (((d.toNat : Int) - 48), rest) else none
  | _ => none

/-- One `[KQRBN]` promotion-piece group, via `_piece_type`. -/
def parsePromoLetter : List Char → Option (PieceType × List Char)
  | 'K' :: rest => some (.king, rest)
  | 'Q' :: rest => some (.queen, rest)
  | 'R' :: rest => some (.rook, rest)
  | 'B' :: rest => some (.bishop, rest)
  | 'N' :: rest => some (.knight, rest)
  | _ => none

/-- One `[KQRBNP]` piece-letter group, via `_piece_type`. -/
def parsePieceLetter : List Char → Option (PieceType × List Char)
  | 'P' :: rest => some (.pawn, rest)
  | cs => parsePromoLetter cs

/-- End of pattern: `$` in `re` also matches just before one trailing
newline. -/
def atEnd (cs : List Char) : Bool :=
  decide (cs = [] ∨ cs = ['\n'])

/-- Pattern `^([a-h][1-8])\s*[x-]?\s*([a-h][1-8])$`. -/
def patSqSq (cs : List Char) : Option (Coordinate × Coordinate) := do
  let (s1, cs) ← parseSquare cs
  let (s2, cs) ← parseSquare (skipWs (parseSep (skipWs cs)))
  if atEnd cs then some (s1, s2) else none

/-- Pattern `^([a-h][1-8])\s*[x-]?\s*([a-h][1-8])\s*=?\s*([KQRBN])$`. -/
def patSqSqPromo (cs : List Char) : Option (Coordinate × Coordinate × PieceType) := do
  let (s1, cs) ← parseSquare cs
  let (s2, cs) ← parseSquare (skipWs (parseSep (skipWs cs)))
  let (pt, cs) ← parsePromoLetter (skipWs (parseEq (skipWs cs)))
  if atEnd cs then some (s1, s2, pt) else none

/-- Pattern `^[a-h][1-8]$`. -/
def patSq (cs : List Char) : Option Coordinate := do
  let (t, cs) ← parseSquare cs
  if atEnd cs then some t else none

/-- Pattern `^([a-h])\s*[x-]?\s*([a-h][1-8])$`. -/
def patFileSq (cs : List Char) : Option (Int × Coordinate) := do
  let (col, cs) ← parseFile cs
  let (t, cs) ← parseSquare (skipWs (parseSep (skipWs cs)))
  if atEnd cs then some (col, t) else none

/-- Pattern `^([a-h][1-8])\s*=?\s*([KQRBN])$`. -/
def patSqPromo (cs : List Char) : Option (Coordinate × PieceType) := do
  let (t, cs) ← parseSquare cs
  let (pt, cs) ← parsePromoLetter (skipWs (parseEq (skipWs cs)))
  if atEnd cs then some (t, pt) else none

/-- Pattern `^([a-h])\s*[x-]?\s*([a-h][1-8])\s*=?\s*([KQRBN])$`. -/
def patFileSqPromo (cs : List Char) : Option (Int × Coordinate × PieceType) := do
  let (col, cs) ← parseFile cs
  let (t, cs) ← parseSquare (skipWs (parseSep (skipWs cs)))
  let (pt, cs) ← parsePromoLetter (skipWs (parseEq (skipWs cs)))
  if atEnd cs then some (col, t, pt) else none

/-- Pattern `^([KQRBNP])\s*[x-]?\s*([a-h][1-8])$`. -/
def patPieceSq (cs : List Char) : Option (PieceType × Coordinate) := do
  let (pt, cs) ← parsePieceLetter cs
  let (t, cs) ← parseSquare (skipWs (parseSep (skipWs cs)))
  if atEnd cs then some (pt, t) else none

/-- Pattern `^([KQRBNP])([a-h])\s*[x-]?\s*([a-h][1-8])$`. -/
def patPieceFileSq (cs : List Char) : Option (PieceType × Int × Coordinate) := do
  let (pt, cs) ← parsePieceLetter cs
  let (col, cs) ← parseFile cs
  let (t, cs) ← parseSquare (skipWs (parseSep (skipWs cs)))
  if atEnd cs then some (pt, col, t) else none

/-- Pattern `^([KQRBNP])([1-8])\s*[x-]?\s*([a-h][1-8])$`. -/
def patPieceRankSq (cs : List Char) : Option (PieceType × Int × Coordinate) := do
  let (pt, cs) ← parsePieceLetter cs
  let (row, cs) ← parseRank cs
  let (t, cs) ← parseSquare (skipWs (parseSep (skipWs cs)))
  if atEnd cs then some (pt, row, t) else none

/-- Pattern `^([KQRBNP])([a-h][1-8])\s*[x-]?\s*([a-h][1-8])$`. -/
def patPieceSqSq (cs : List Char) : Option (PieceType × Coordinate × Coordinate) := do
  let (pt, cs) ← parsePieceLetter cs
  let (s, cs) ← parseSquare cs
  let (t, cs) ← parseSquare (skipWs (parseSep (skipWs cs)))
  if atEnd cs then some (pt, s, t) else none

/-- The piece at a coordinate is a `Pawn` (`type(piece) == pieces.Pawn`;
an empty square is not). -/
def pawnTypeAt (b : BoardState) (c : Coordinate) : Bool :=
  match getPiece b c.row c.col with
  | some p => decide (p.ptype = PieceType.pawn)
  | none => false

/-- Patterns 3–10 of `parse_move`, tried in source order once the two
square-to-square patterns have failed (or pattern 2 matched but was not a
pawn promotion and fell through). -/
def parseMoveTail (b : BoardState) (t : List Char) : Except ExecErr (Option Move) :=
  match patSq t with
  | some tgt => processMatch b tgt PieceType.pawn none (some tgt.col)
  | none =>
  match patFileSq t with
  | some (col, tgt) => processMatch b tgt PieceType.pawn none (some col)
  | none =>
  match patSqPromo t with
  | some (tgt, pt) => processPromotionMatch b tgt pt none
  | none =>
  match patFileSqPromo t with
  | some (col, tgt, pt) => processPromotionMatch b tgt pt (some col)
  | none =>
  match patPieceSq t with
  | some (pt, tgt) => processMatch b tgt pt none none
  | none =>
  match patPieceFileSq t with
  | some (pt, col, tgt) => processMatch b tgt pt none (some col)
  | none =>
  match patPieceRankSq t with
  | some (pt, row, tgt) => processMatch b tgt pt (some row) none
  | none =>
  match patPieceSqSq t with
  | some (pt, s, tgt) => processMatch b tgt pt (some s.row) (some s.col)
  | none => .ok none

/-- `BoardState.parse_move`: strip whitespace and trailing check marks,
recognize the castling tokens, then try the text patterns in order.  A
square-to-square match is returned immediately as an `EnPassant` (when the
start holds a pawn and the target names the stored en-passant square) or a
`BasicMove`, without any legality check; the square-to-square-promotion
match returns a `PawnPromotion` only when the start holds a pawn,
otherwise it falls through to the remaining patterns. -/
def parseMove (b : BoardState) (s : String) : Except ExecErr (Option Move) :=
  let t := pyRstripCheck (pyStrip s.toList)
  if t = "0-0".toList then .ok (some (Move.kingsideCastle b.turn))
  else if t = "0-0-0".toList then .ok (some (Move.queensideCastle b.turn))
  else
    match patSqSq t with
    | some (s1, s2) =>
        if pawnTypeAt b s1 ∧ b.enPassantTarget = some s2.sqName then
          .ok (some (Move.enPassant s1 s2))
        else .ok (some (Move.basic s1 s2))
    | none =>
    match patSqSqPromo t with
    | some (s1, s2, pt) =>
        if pawnTypeAt b s1 ∧ pt ≠ PieceType.pawn then
          .ok (some (Move.pawnPromotion s1 s2 pt))
        else parseMoveTail b t
    | none => parseMoveTail b t

/-- The `BasicMove` branch shared by the `can_move` of King, Queen, Rook,
Bishop and Knight: refuse to take an own piece, otherwise defer to the
piece's `can_attack` geometry. -/
def canMoveBasic (p : Piece) (b : BoardState) (start target : Coordinate) : Bool :=
  match getPiece b target.row target.col with
  | some tp => if tp.white = p.white then false else p.canAttack b start target
  | none => p.canAttack b start target

/-- `Pawn.can_move` on a `BasicMove`: straight pushes of 1 (not onto the
promotion rank) or 2 (when unmoved) through empty squares, or a diagonal
capture of an opponent piece. -/
def pawnCanMoveBasic (p : Piece) (b : BoardState) (start target : Coordinate) : Bool :=
  if start.col = target.col then
    let dir := pawnDirection p
    let distance := (target.row - start.row) / dir
    if distance = 1 ∧ ranksToPromotion p start ≠ 1 then
      decide (getPiece b (start.row + dir) start.col = none)
    else if distance = 2 ∧ !p.hasMoved then
      decide (getPiece b (start.row + dir) start.col = none) &&
      decide (getPiece b (start.row + 2 * dir) start.col = none)
    else false
  else
    match getPiece b target.row target.col with
    | some tp => if tp.white = p.white then false else p.canAttack b start target
    | none => p.canAttack b start target

/-- `Pawn.can_move` on a `PawnPromotion`: a one-step push onto the
promotion rank into an empty square, or a diagonal capture. -/
def pawnCanMovePromotion (p : Piece) (b : BoardState) (start target : Coordinate) : Bool :=
  if start.col = target.col then
    if start.row + pawnDirection p = target.row ∧ ranksToPromotion p start = 1 then
      decide (getPiece b target.row target.col = none)
    else false
  else
    match getPiece b target.row target.col with
    | some tp => if tp.white = p.white then false else p.canAttack b start target
    | none => p.canAttack b start target

/-- `Piece.can_move` of each subclass: validate one given move against the
piece's movement rules (no own-king-check accounting).  The pawn's
`EnPassant` branch may raise while reading a malformed stored en-passant
string, hence the `Except`. -/
def Piece.canMove (p : Piece) (b : BoardState) (m : Move) : Except ExecErr Bool :=
  match p.ptype, m with
  | .king, .basic s t => .ok (canMoveBasic p b s t)
  | .king, .kingsideCastle _ => .ok (canCastleKingside b)
  | .king, .queensideCastle _ => .ok (canCastleQueenside b)
  | .queen, .basic s t => .ok (canMoveBasic p b s t)
  | .rook, .basic s t => .ok (canMoveBasic p b s t)
  | .bishop, .basic s t => .ok (canMoveBasic p b s t)
  | .knight, .basic s t => .ok (canMoveBasic p b s t)
  | .pawn, .basic s t => .ok (pawnCanMoveBasic p b s t)
  | .pawn, .pawnPromotion s t _ => .ok (pawnCanMovePromotion p b s t)
  | .pawn, .enPassant s t => do
      let epc ← enPassantCoordsE b
      if epc = some t then pure (p.canAttack b s t) else pure false
  | _, _ => .ok false

/-- Shorthand: white pieces (fresh, unmoved). -/
def WK : Option Piece := some ⟨.king, true, false⟩

/-- White queen. -/
def WQ : Option Piece := some ⟨.queen, true, false⟩

/-- White rook. -/
def WR : Option Piece := some ⟨.rook, true, false⟩

/-- White bishop. -/
def WB : Option Piece := some ⟨.bishop, true, false⟩

/-- White knight. -/
def WN : Option Piece := some ⟨.knight, true, false⟩

/-- White pawn (not yet moved). -/
def WP : Option Piece := some ⟨.pawn, true, false⟩

/-- Black king. -/
def BK : Option Piece := some ⟨.king, false, false⟩

/-- Black queen. -/
def BQ : Option Piece := some ⟨.queen, false, false⟩

/-- Black rook. -/
def BR : Option Piece := some ⟨.rook, false, false⟩

/-- Black bishop. -/
def BB : Option Piece := some ⟨.bishop, false, false⟩

/-- Black knight. -/
def BN : Option Piece := some ⟨.knight, false, false⟩

/-- Black pawn (not yet moved). -/
def BP : Option Piece := some ⟨.pawn, false, false⟩

/-- Empty square. -/
def nn : Option Piece := none

/-- An empty rank. -/
def emptyRank : List (Option Piece) := [nn, nn, nn, nn, nn, nn, nn, nn]

/-- `BoardState()` with the default FEN record
`rnbqkbnr/pppppppp/8/8/8/8/PPPPPPPP/RNBQKBNR w KQkq - 0 1`: the standard
initial position, all four castling flags assigned `True`. -/
def initialBoard : BoardState where
  grid :=
    [[WR, WN, WB, WQ, WK, WB, WN, WR],
     [WP, WP, WP, WP, WP, WP, WP, WP],
     emptyRank, emptyRank, emptyRank, emptyRank,
     [BP, BP, BP, BP, BP, BP, BP, BP],
     [BR, BN, BB, BQ, BK, BB, BN, BR]]
  turn := true
  wKingside := true
  wQueenside := true
  bKingside := true
  bQueenside := true
  enPassantTarget := none
  setPassantThisTurn := false
  halfmoveClock := 0
  fullmoveNumber := 1

/-- A board used for concrete witnesses: white king e1, white rook a1,
black king e8, white to move, no castling rights, no en-passant target. -/
def witBoard : BoardState where
  grid :=
    [[WR, nn, nn, nn, WK, nn, nn, nn],
     emptyRank, emptyRank, emptyRank, emptyRank, emptyRank, emptyRank,
     [nn, nn, nn, nn, BK, nn, nn, nn]]
  turn := true
  wKingside := false
  wQueenside := false
  bKingside := false
  bQueenside := false
  enPassantTarget := none
  setPassantThisTurn := false
  halfmoveClock := 0
  fullmoveNumber := 1

/-- If `make_move` returns a state (instead of raising), that state passed
the `is_valid_state` gate. -/
theorem makeMove_ok_valid {b : BoardState} {m : Move} {b' : BoardState}
    (h : makeMove b m = .ok b') : isValidState b' = true := by
  unfold makeMove at h
  cases hex : m.execute b with
  | error e =>
      rw [hex] at h
      simp only [bind, Except.bind] at h
      cases h
  | ok trip =>
      obtain ⟨b1, cap, pa⟩ := trip
      rw [hex] at h
      simp only [bind, Except.bind] at h
      by_cases hv : isValidState (updateState b1 cap pa) = true
      · rw [if_pos hv] at h
        cases h
        exact hv
      · rw [if_neg hv] at h
        cases h

/-- Every move the `get_moves` fold has accumulated was accepted by
`make_move` (or was already in the accumulator). -/
theorem foldlM_getMoves_mem {b : BoardState} {l : List Move} {acc ms : List Move}
    (h : l.foldlM (getMovesStep b) acc = .ok ms) {m : Move} (hm : m ∈ ms) :
    m ∈ acc ∨ ∃ b', makeMove b m = .ok b' := by
  induction l generalizing acc with
  | nil =>
      simp only [List.foldlM_nil] at h
      cases h
      exact .inl hm
  | cons x xs ih =>
      rw [List.foldlM_cons] at h
      cases hs : getMovesStep b acc x with
      | error e =>
          rw [hs] at h
          simp only [bind, Except.bind] at h
          cases h
      | ok acc' =>
          rw [hs] at h
          simp only [bind, Except.bind] at h
          rcases ih h with hin | hmk
          · unfold getMovesStep at hs
            cases hmm : makeMove b x with
            | ok bx =>
                rw [hmm] at hs
                cases hs
                rcases List.mem_append.mp hin with hin' | hin'
                · exact .inl hin'
                · rcases List.mem_singleton.mp hin' with rfl
                  exact .inr ⟨bx, hmm⟩
            | error e =>
                rw [hmm] at hs
                cases e with
                | invalidMove =>
                    cases hs
                    exact .inl hin
                | invalidCoord => cases hs
                | indexError => cases hs
          · exact .inr hmk

/-- C1: for every position `b`, every piece `p` of the side to move
standing at square `s`, and every move `m` in the legal-move list
`p.get_moves(b, s)`, the call `b.make_move(m)` does not raise and the
returned position satisfies `is_valid_state`. -/
theorem c1_legal_moves_valid (b : BoardState) (p : Piece) (s : Coordinate)
    (ms : List Move) (m : Move)
    (_hpiece : getPiece b s.row s.col = some p) (_hcolor : p.white = b.turn)
    (hms : p.getMoves b s = .ok ms) (hm : m ∈ ms) :
    ∃ b', makeMove b m = .ok b' ∧ isValidState b' = true := by
  unfold Piece.getMoves at hms
  cases hpm : p.potentialMoves b s with
  | error e =>
      rw [hpm] at hms
      simp only [bind, Except.bind] at hms
      cases hms
  | ok pm =>
      rw [hpm] at hms
      simp only [bind, Except.bind] at hms
      rcases foldlM_getMoves_mem hms hm with hin | ⟨b', hb'⟩
      · cases hin
      · exact ⟨b', hb', makeMove_ok_valid hb'⟩

/-- The legal moves of the white king on `witBoard`, as computed by
`get_moves`. -/
def witKingMoves : List Move :=
  [Move.basic ⟨1, 5⟩ ⟨1, 4⟩, Move.basic ⟨1, 5⟩ ⟨1, 6⟩,
   Move.basic ⟨1, 5⟩ ⟨2, 4⟩, Move.basic ⟨1, 5⟩ ⟨2, 5⟩, Move.basic ⟨1, 5⟩ ⟨2, 6⟩]

/-- Witness for C1 at a concrete input: the king move e1–d1 from
`witBoard` is in the legal-move list and `make_move` accepts it. -/
theorem c1_legal_moves_valid_witness :
    ∃ b', makeMove witBoard (Move.basic ⟨1, 5⟩ ⟨1, 4⟩) = .ok b' ∧
      isValidState b' = true :=
  c1_legal_moves_valid witBoard ⟨.king, true, false⟩ ⟨1, 5⟩ witKingMoves
    (Move.basic ⟨1, 5⟩ ⟨1, 4⟩) (by decide) (by decide) (by decide) (by decide)

/-- C6: `make_move` performs no movement-geometry check on a `BasicMove`.
On the initial position the square a1 holds a white rook, the rook's own
`can_move` rejects the diagonal a1–h8, yet `make_move` accepts that
`BasicMove` (the start holds a piece of the side to move, the target holds
an enemy piece, and the mover's king is left safe) and returns the new
position. -/
theorem c6_make_move_skips_geometry :
    getPiece initialBoard 1 1 = some ⟨.rook, true, false⟩ ∧
    Piece.canMove ⟨.rook, true, false⟩ initialBoard
      (Move.basic ⟨1, 1⟩ ⟨8, 8⟩) = .ok false ∧
    (makeMove initialBoard (Move.basic ⟨1, 1⟩ ⟨8, 8⟩)).isOk = true := by
  decide

/-- The position after e2-e4, a7-a6, e4-e5, d7-d5 from the initial
position. -/
def c9Position : Except ExecErr BoardState :=
  [Move.basic ⟨2, 5⟩ ⟨4, 5⟩, Move.basic ⟨7, 1⟩ ⟨6, 1⟩,
   Move.basic ⟨4, 5⟩ ⟨5, 5⟩, Move.basic ⟨7, 4⟩ ⟨5, 4⟩].foldlM makeMove initialBoard

/-- C9: after e2-e4, a7-a6, e4-e5, d7-d5 the stored en-passant target is
d6; d6 is empty while d5 holds the black pawn that just advanced two
squares; the white pawn on e5 is offered exactly the forward push e5-e6
and the `EnPassant` capture e5xd6 as its legal moves; and executing the
en-passant move succeeds and removes the black pawn from d5. -/
theorem c9_en_passant_capture :
    (c9Position.map fun b => b.enPassantTarget) = .ok (some "d6") ∧
    (c9Position.map fun b => getPiece b 6 4) = .ok none ∧
    (c9Position.map fun b => getPiece b 5 4) = .ok (some ⟨.pawn, false, true⟩) ∧
    (c9Position.map fun b => Piece.getMoves ⟨.pawn, true, true⟩ b ⟨5, 5⟩) =
      .ok (.ok [Move.basic ⟨5, 5⟩ ⟨6, 5⟩, Move.enPassant ⟨5, 5⟩ ⟨6, 4⟩]) ∧
    (c9Position.map fun b =>
        (makeMove b (Move.enPassant ⟨5, 5⟩ ⟨6, 4⟩)).map fun b2 => getPiece b2 5 4) =
      .ok (.ok none) := by
  decide

/-- White king e1 in check from a black bishop on h4; white rook a1 with
the queenside castling right; squares b1, c1, d1 empty and unattacked;
black king e8. -/
def c3Pos : BoardState where
  grid :=
    [[WR, nn, nn, nn, WK, nn, nn, nn],
     emptyRank, emptyRank,
     [nn, nn, nn, nn, nn, nn, nn, BB],
     emptyRank, emptyRank, emptyRank,
     [nn, nn, nn, nn, BK, nn, nn, nn]]
  turn := true
  wKingside := false
  wQueenside := true
  bKingside := false
  bQueenside := false
  enPassantTarget := none
  setPassantThisTurn := false
  halfmoveClock := 0
  fullmoveNumber := 1

/-- C3 fails on the code: `can_castle_queenside` tests
`under_attack(Coordinate.from_coords(5, rank), ...)` — square a5 for
white — instead of the king square e1, so on `c3Pos` it reports that
white may castle queenside even though the white king is in check.  (The
claim requires `can_castle_queenside = true` to imply the king is not in
check.) -/
theorem c3_queenside_ignores_check :
    canCastleQueenside c3Pos = true ∧ inCheck c3Pos c3Pos.turn = true := by
  decide

/-- The position after h2-h3, a7-a6, h1-h2 from the initial position: a
reachable position in which white has lost only the kingside castling
right, so its rendered castling field is `Qkq`. -/
def c2Position : Except ExecErr BoardState :=
  [Move.basic ⟨2, 8⟩ ⟨3, 8⟩, Move.basic ⟨7, 1⟩ ⟨6, 1⟩,
   Move.basic ⟨1, 8⟩ ⟨2, 8⟩].foldlM makeMove initialBoard

/-- C2 fails on the code: rendering the reachable position `c2Position`
produces a six-field string whose castling field is the proper subset
`Qkq`; parsing that string leaves the `_w_kingside` slot unassigned
(`none` here), so rendering the reparsed state raises `AttributeError`
(`rawToFen?` returns `none`) instead of reproducing the original string.
On the initial record, whose castling field is the full `KQkq`, the
round trip does succeed. -/
theorem c2_roundtrip_crashes :
    (c2Position.map toFen) =
      .ok "rnbqkbnr/1ppppppp/p7/8/8/7P/PPPPPPPR/RNBQKBN1 b Qkq - 1 2" ∧
    (c2Position.map fun b => (initFen (toFen b)).toOption.map RawBoardState.wKingside) =
      .ok (some none) ∧
    (c2Position.map fun b => (initFen (toFen b)).toOption.bind rawToFen?) =
      .ok none ∧
    (initFen (toFen initialBoard)).toOption.bind rawToFen? =
      some (toFen initialBoard) := by
  decide

/-- Number of pieces of the given type and color in a flattened board. -/
def cntPiece (t : PieceType) (w : Bool) (l : List (Option Piece)) : Nat :=
  l.countP fun op =>
    match op with
    | some p => decide (p.ptype = t ∧ p.white = w)
    | none => false

/-- Some queen, rook or pawn occurs in a flattened board. -/
def hasQRP (l : List (Option Piece)) : Bool :=
  l.any fun op =>
    match op with
    | some p =>
        decide (p.ptype = PieceType.queen ∨ p.ptype = PieceType.rook ∨
          p.ptype = PieceType.pawn)
    | none => false

/-- The early-exit row scan of `insufficient_material` aborts exactly when
a queen/rook/pawn occurs and otherwise adds the per-color bishop/knight
counts of the row to the accumulator. -/
theorem countMinorsRow_eq (l : List (Option Piece)) (acc : Nat × Nat × Nat × Nat) :
    countMinorsRow acc l =
      if hasQRP l then none
      else some (acc.1 + cntPiece .bishop true l, acc.2.1 + cntPiece .knight true l,
        acc.2.2.1 + cntPiece .bishop false l, acc.2.2.2 + cntPiece .knight false l) := by
  induction l generalizing acc with
  | nil => simp [countMinorsRow, hasQRP, cntPiece]
  | cons x rest ih =>
      obtain ⟨wb, wn, bb, bn⟩ := acc
      cases x with
      | none =>
          simp only [countMinorsRow, ih]
          simp [hasQRP, cntPiece, List.countP_cons]
      | some p =>
          obtain ⟨pt, pw, pm⟩ := p
          cases pt <;> cases pw <;>
            · simp only [countMinorsRow, ih]
              simp [hasQRP, cntPiece, List.countP_cons]
              try split <;> try simp
              all_goals omega

/-- Splitting the row scan across an append. -/
theorem countMinorsRow_append (l1 l2 : List (Option Piece))
    (acc : Nat × Nat × Nat × Nat) :
    countMinorsRow acc (l1 ++ l2) =
      (countMinorsRow acc l1).bind fun a => countMinorsRow a l2 := by
  induction l1 generalizing acc with
  | nil => simp [countMinorsRow]
  | cons x rest ih =>
      cases x with
      | none =>
          simp only [List.cons_append, countMinorsRow]
          exact ih _
      | some p =>
          simp only [List.cons_append, countMinorsRow]
          split
          · exact ih _
          · split
            · simp
            · split
              · split <;> exact ih _
              · split <;> exact ih _

/-- The grid scan of `insufficient_material` equals the row scan of the
flattened grid. -/
theorem countMinorsGrid_eq_flatten (g : List (List (Option Piece)))
    (acc : Nat × Nat × Nat × Nat) :
    countMinorsGrid acc g = countMinorsRow acc g.flatten := by
  induction g generalizing acc with
  | nil => simp [countMinorsGrid, countMinorsRow]
  | cons row rest ih =>
      rw [List.flatten_cons, countMinorsRow_append]
      cases h : countMinorsRow acc row with
      | none => simp [countMinorsGrid, h]
      | some a => simp [countMinorsGrid, h, ih]

/-- The row scan from the zero accumulator. -/
theorem countMinorsRow_eq_zero (l : List (Option Piece)) :
    countMinorsRow (0, 0, 0, 0) l =
      if hasQRP l then none
      else some (cntPiece .bishop true l, cntPiece .knight true l,
        cntPiece .bishop false l, cntPiece .knight false l) := by
  rw [countMinorsRow_eq]
  simp

/-- A bare board (white to move, no rights, no en-passant target) around a
given grid, for the insufficient-material examples. -/
def bareBoard (g : List (List (Option Piece))) : BoardState :=
  ⟨g, true, false, false, false, false, none, false, 0, 1⟩

/-- King and bishop versus king. -/
def exKBK : BoardState :=
  bareBoard [[nn, nn, WB, nn, WK, nn, nn, nn], emptyRank, emptyRank, emptyRank,
    emptyRank, emptyRank, emptyRank, [nn, nn, nn, nn, BK, nn, nn, nn]]

/-- King and rook versus king. -/
def exKRK : BoardState :=
  bareBoard [[WR, nn, nn, nn, WK, nn, nn, nn], emptyRank, emptyRank, emptyRank,
    emptyRank, emptyRank, emptyRank, [nn, nn, nn, nn, BK, nn, nn, nn]]

/-- King and two knights versus king. -/
def exKNNK : BoardState :=
  bareBoard [[nn, WN, nn, nn, WK, nn, WN, nn], emptyRank, emptyRank, emptyRank,
    emptyRank, emptyRank, emptyRank, [nn, nn, nn, nn, BK, nn, nn, nn]]

/-- King and two knights versus king and knight. -/
def exKNNKN : BoardState :=
  bareBoard [[nn, WN, nn, nn, WK, nn, WN, nn], emptyRank, emptyRank, emptyRank,
    emptyRank, emptyRank, emptyRank, [nn, BN, nn, nn, BK, nn, nn, nn]]

/-- C7: `insufficient_material` returns `true` iff no queen, rook or pawn
is on the board and either each side has at most one minor piece in
total, or one side has exactly two knights and no bishop while the other
side has no minor piece at all.  In particular K+B vs K and K+2N vs K are
insufficient, while K+R vs K and K+2N vs K+N are not. -/
theorem c7_insufficient_material_iff :
    (∀ b : BoardState,
      insufficientMaterial b = true ↔
        (hasQRP b.grid.flatten = false ∧
          ((cntPiece .bishop true b.grid.flatten + cntPiece .knight true b.grid.flatten ≤ 1 ∧
            cntPiece .bishop false b.grid.flatten + cntPiece .knight false b.grid.flatten ≤ 1) ∨
           (cntPiece .bishop true b.grid.flatten = 0 ∧
            cntPiece .knight true b.grid.flatten = 2 ∧
            cntPiece .bishop false b.grid.flatten + cntPiece .knight false b.grid.flatten = 0) ∨
           (cntPiece .bishop false b.grid.flatten = 0 ∧
            cntPiece .knight false b.grid.flatten = 2 ∧
            cntPiece .bishop true b.grid.flatten + cntPiece .knight true b.grid.flatten = 0)))) ∧
    insufficientMaterial exKBK = true ∧
    insufficientMaterial exKRK = false ∧
    insufficientMaterial exKNNK = true ∧
    insufficientMaterial exKNNKN = false := by
  refine ⟨fun b => ?_, by decide, by decide, by decide, by decide⟩
  unfold insufficientMaterial
  rw [countMinorsGrid_eq_flatten, countMinorsRow_eq_zero]
  cases hq : hasQRP b.grid.flatten with
  | true => simp
  | false =>
      simp only [Bool.false_eq_true, if_false]
      split_ifs with h1 h2 h3 <;> simp_all

/-- What `Piece.__eq__` compares on a square: the piece's type and color
(or emptiness). -/
def pieceKey : Option Piece → Option (PieceType × Bool)
  | some p => some (p.ptype, p.white)
  | none => none

/-- The grid has the full 8×8 shape (true of every position the engine
builds). -/
def WellFormed (b : BoardState) : Prop :=
  b.grid.length = 8 ∧ ∀ r ∈ b.grid, r.length = 8

instance (b : BoardState) : Decidable (WellFormed b) := by
  unfold WellFormed
  infer_instance

/-- Sameness of positions in the words of the claim: same side to move,
same four castling rights, same en-passant target, and identical piece
placement square by square, pieces compared by type and color — the
halfmove and fullmove counters are ignored. -/
def specSamePosition (b1 b2 : BoardState) : Prop :=
  b1.turn = b2.turn ∧
  b1.wKingside = b2.wKingside ∧ b1.wQueenside = b2.wQueenside ∧
  b1.bKingside = b2.bKingside ∧ b1.bQueenside = b2.bQueenside ∧
  b1.enPassantTarget = b2.enPassantTarget ∧
  ∀ r < 8, ∀ c < 8,
    ((b1.grid.get? r).bind fun row => row.get? c).map pieceKey =
    ((b2.grid.get? r).bind fun row => row.get? c).map pieceKey

instance (b1 b2 : BoardState) : Decidable (specSamePosition b1 b2) := by
  unfold specSamePosition
  infer_instance

/-- `rowSame` is equality of the rows' type-and-color projections. -/
theorem rowSame_iff (r1 : List (Option Piece)) :
    ∀ r2, rowSame r1 r2 = true ↔ r1.map pieceKey = r2.map pieceKey := by
  induction r1 with
  | nil =>
      intro r2
      cases r2 with
      | nil => simp [rowSame]
      | cons y ys => cases y <;> simp [rowSame]
  | cons x xs ih =>
      intro r2
      cases r2 with
      | nil => cases x <;> simp [rowSame]
      | cons y ys =>
          cases x with
          | none =>
              cases y with
              | none => simp [rowSame, pieceKey, ih]
              | some q => simp [rowSame, pieceKey]
          | some p =>
              cases y with
              | none => simp [rowSame, pieceKey]
              | some q =>
                  simp only [rowSame, Piece.same, Bool.and_eq_true, decide_eq_true_eq,
                    List.map_cons, pieceKey, List.cons.injEq, Option.some.injEq,
                    Prod.mk.injEq, ih]

/-- For grids of equal length, the row-wise `zip`-`all` of `rowSame` is
equality of the grids' projections. -/
theorem zipAll_rowSame_iff (g1 : List (List (Option Piece))) :
    ∀ g2, g1.length = g2.length →
      ((((g1.zip g2).all fun rr => rowSame rr.1 rr.2) = true) ↔
        g1.map (List.map pieceKey) = g2.map (List.map pieceKey)) := by
  induction g1 with
  | nil =>
      intro g2 hlen
      cases g2 with
      | nil => simp
      | cons y ys => cases hlen
  | cons x xs ih =>
      intro g2 hlen
      cases g2 with
      | nil => cases hlen
      | cons y ys =>
          simp only [List.zip_cons_cons, List.all_cons, List.map_cons,
            Bool.and_eq_true, List.cons.injEq]
          rw [rowSame_iff, ih ys (by simpa using hlen)]

/-- Equality of the projected grids is the square-by-square comparison,
once both grids have the 8×8 shape. -/
theorem mapKey_eq_iff (g1 g2 : List (List (Option Piece)))
    (hl1 : g1.length = 8) (hl2 : g2.length = 8)
    (hr1 : ∀ r ∈ g1, r.length = 8) (hr2 : ∀ r ∈ g2, r.length = 8) :
    g1.map (List.map pieceKey) = g2.map (List.map pieceKey) ↔
      ∀ r < 8, ∀ c < 8,
        ((g1.get? r).bind fun row => row.get? c).map pieceKey =
        ((g2.get? r).bind fun row => row.get? c).map pieceKey := by
  constructor
  · intro hmap r _hr c _hc
    have hrow : (g1.get? r).map (List.map pieceKey) =
        (g2.get? r).map (List.map pieceKey) := by
      rw [← List.get?_map, ← List.get?_map, hmap]
    cases h1 : g1.get? r with
    | none =>
        have h2 : g2.get? r = none := by
          rw [List.get?_eq_none] at h1 ⊢
          omega
        rw [h2]
    | some row1 =>
        cases h2 : g2.get? r with
        | none => rw [h1, h2] at hrow; cases hrow
        | some row2 =>
            rw [h1, h2] at hrow
            simp only [Option.map_some', Option.some.injEq] at hrow
            have hrc : (row1.get? c).map pieceKey = (row2.get? c).map pieceKey := by
              rw [← List.get?_map, ← List.get?_map, hrow]
            rw [Option.some_bind, Option.some_bind]
            exact hrc
  · intro hsq
    apply List.ext_get?
    intro r
    rcases Nat.lt_or_ge r 8 with hr | hr
    · rw [List.get?_map, List.get?_map]
      cases h1 : g1.get? r with
      | none =>
          rw [List.get?_eq_none] at h1
          omega
      | some row1 =>
          cases h2 : g2.get? r with
          | none =>
              rw [List.get?_eq_none] at h2
              omega
          | some row2 =>
              have hlen1 : row1.length = 8 := hr1 _ (List.get?_mem h1)
              have hlen2 : row2.length = 8 := hr2 _ (List.get?_mem h2)
              simp only [Option.map_some', Option.some.injEq]
              apply List.ext_get?
              intro c
              rcases Nat.lt_or_ge c 8 with hc | hc
              · have hsq' := hsq r hr c hc
                rw [h1, h2, Option.some_bind, Option.some_bind] at hsq'
                rw [List.get?_map, List.get?_map]
                exact hsq'
              · rw [List.get?_map, List.get?_map]
                have e1 : row1.get? c = none := by rw [List.get?_eq_none]; omega
                have e2 : row2.get? c = none := by rw [List.get?_eq_none]; omega
                rw [e1, e2]
    · have e1 : g1.get? r = none := by rw [List.get?_eq_none]; omega
      have e2 : g2.get? r = none := by rw [List.get?_eq_none]; omega
      rw [List.get?_map, List.get?_map, e1, e2]

/-- On well-formed positions, `BoardState.__eq__` decides exactly the
claim's sameness relation. -/
theorem boardSame_iff_spec (b1 b2 : BoardState)
    (hw1 : WellFormed b1) (hw2 : WellFormed b2) :
    boardSame b1 b2 = true ↔ specSamePosition b1 b2 := by
  obtain ⟨hl1, hr1⟩ := hw1
  obtain ⟨hl2, hr2⟩ := hw2
  unfold boardSame specSamePosition
  simp only [Bool.and_eq_true, decide_eq_true_eq, List.all_eq_true]
  rw [show (∀ x ∈ b1.grid.zip b2.grid, rowSame x.1 x.2 = true) ↔
      ((b1.grid.zip b2.grid).all fun rr => rowSame rr.1 rr.2) = true by
    simp [List.all_eq_true]]
  rw [zipAll_rowSame_iff _ _ (by omega),
    mapKey_eq_iff _ _ hl1 hl2 hr1 hr2]
  tauto

/-- C4: `threefold_repetition` reports a draw iff, among the last
`halfmove + 1` positions of the history (the current position plus
exactly `halfmove` plies of lookback, clamped to the available history),
at least 3 are the same as the current one in the claim's sense — same
side to move, same four castling rights, same en-passant target, and
identical piece placement square by square with pieces compared by type
and color, the halfmove/fullmove counters ignored. -/
theorem c4_threefold_iff (g : ChessGame) (cur : BoardState)
    (h : currentState? g = some cur)
    (hwf : ∀ b ∈ g.states, WellFormed b) :
    threefoldRepetition g = true ↔
      3 ≤ (g.states.drop (g.states.length - (cur.halfmoveClock + 1))).countP
            fun s => decide (specSamePosition s cur) := by
  have hcur : WellFormed cur := hwf cur (List.mem_of_mem_getLast? h)
  unfold threefoldRepetition
  rw [h, decide_eq_true_eq]
  have hcount :
      (g.states.drop (g.states.length - (cur.halfmoveClock + 1))).countP
          (fun s => boardSame s cur) =
        (g.states.drop (g.states.length - (cur.halfmoveClock + 1))).countP
          (fun s => decide (specSamePosition s cur)) := by
    apply List.countP_congr
    intro s hs
    have hws : WellFormed s := hwf s (List.drop_subset _ _ hs)
    rw [boardSame_iff_spec s cur hws hcur, decide_eq_true_eq]
  rw [hcount]

/-- The witness board repeated in the C4 witness game, with a halfmove
clock of 2 so that the lookback window covers all three occurrences. -/
def witBoard2 : BoardState :=
  { witBoard with halfmoveClock := 2 }

/-- A three-state game consisting of the same position three times. -/
def witGame : ChessGame :=
  ⟨[witBoard2, witBoard2, witBoard2]⟩

/-- Witness for C4 at a concrete input: the three-fold repeated game is
reported as a repetition draw. -/
theorem c4_threefold_iff_witness : threefoldRepetition witGame = true :=
  (c4_threefold_iff witGame witBoard2 (by decide) (by decide)).mpr (by decide)

/-- C5: `get_result` tests the terminal conditions in the fixed order
checkmate, fifty-move rule (halfmove clock ≥ 50), stalemate, threefold
repetition, insufficient material, returning the first match and `none`
when the game continues.  Writing `alm` for "the side to move has a legal
move", checkmate is in-check with `alm = false` and stalemate is
not-in-check with `alm = false`; the seven conjuncts walk the priority
chain.  In particular a position eligible for both the fifty-move rule
and stalemate reports the fifty-move draw (third conjunct, whose
not-in-check case is exactly stalemate eligibility), and checkmate with
white to move yields label `Black Won` with white's score 0 (first
conjunct). -/
theorem c5_result_priority (g : ChessGame) (bd : BoardState) (alm : Bool)
    (h : currentState? g = some bd) (ha : anyLegalMoves bd = .ok alm) :
    (inCheck bd bd.turn = true → alm = false → bd.turn = true →
      getResult g = .ok (some ⟨"Black Won", "checkmate", 0⟩)) ∧
    (inCheck bd bd.turn = true → alm = false → bd.turn = false →
      getResult g = .ok (some ⟨"White Won", "checkmate", 1⟩)) ∧
    ((inCheck bd bd.turn = false ∨ alm = true) → 50 ≤ bd.halfmoveClock →
      getResult g = .ok (some ⟨"Draw", "fifty move rule", 1 / 2⟩)) ∧
    (inCheck bd bd.turn = false → alm = false → bd.halfmoveClock < 50 →
      getResult g = .ok (some ⟨"Draw", "stalemate", 1 / 2⟩)) ∧
    (alm = true → bd.halfmoveClock < 50 → threefoldRepetition g = true →
      getResult g = .ok (some ⟨"Draw", "threefold repetition", 1 / 2⟩)) ∧
    (alm = true → bd.halfmoveClock < 50 → threefoldRepetition g = false →
      insufficientMaterial bd = true →
      getResult g = .ok (some ⟨"Draw", "insufficient material", 1 / 2⟩)) ∧
    (alm = true → bd.halfmoveClock < 50 → threefoldRepetition g = false →
      insufficientMaterial bd = false → getResult g = .ok none) := by
  have hcm : isCheckmate bd = .ok (inCheck bd bd.turn && !alm) := by
    unfold isCheckmate
    cases hic : inCheck bd bd.turn
    · simp [pure, Except.pure]
    · simp only [if_pos rfl, ha, Bool.true_and, bind, Except.bind]
      rfl
  have hsm : isStalemate bd = .ok (!(inCheck bd bd.turn) && !alm) := by
    unfold isStalemate
    cases hic : inCheck bd bd.turn
    · simp only [Bool.not_false, if_pos rfl, ha, Bool.true_and, bind, Except.bind]
      rfl
    · simp [pure, Except.pure]
  have key : getResult g = .ok (
      if inCheck bd bd.turn && !alm then
        (if bd.turn then some ⟨"Black Won", "checkmate", 0⟩
         else some ⟨"White Won", "checkmate", 1⟩)
      else if isFiftyMoveRule bd then some ⟨"Draw", "fifty move rule", 1 / 2⟩
      else if !(inCheck bd bd.turn) && !alm then some ⟨"Draw", "stalemate", 1 / 2⟩
      else if threefoldRepetition g then some ⟨"Draw", "threefold repetition", 1 / 2⟩
      else if insufficientMaterial bd then some ⟨"Draw", "insufficient material", 1 / 2⟩
      else none) := by
    unfold getResult
    rw [h]
    simp only [hcm, hsm, bind, Except.bind]
    by_cases h1 : (inCheck bd bd.turn && !alm) = true
    · simp only [h1, if_true]
      split <;> rfl
    · simp only [Bool.not_eq_true] at h1
      simp only [h1, Bool.false_eq_true, if_false]
      by_cases h2 : isFiftyMoveRule bd = true
      · simp only [h2, if_true]
        rfl
      · simp only [Bool.not_eq_true] at h2
        simp only [h2, Bool.false_eq_true, if_false]
        by_cases h3 : (!(inCheck bd bd.turn) && !alm) = true
        · simp only [h3, if_true]
          rfl
        · simp only [Bool.not_eq_true] at h3
          simp only [h3, Bool.false_eq_true, if_false]
          split <;> (try split) <;> rfl
  refine ⟨fun h1 h2 h3 => ?_, fun h1 h2 h3 => ?_, fun h1 h2 => ?_,
    fun h1 h2 h3 => ?_, fun h1 h2 h3 => ?_, fun h1 h2 h3 h4 => ?_,
    fun h1 h2 h3 h4 => ?_⟩
  · rw [key, h1, h2, h3]
    rfl
  · rw [key, h1, h2, h3]
    rfl
  · have hf : isFiftyMoveRule bd = true := by
      unfold isFiftyMoveRule
      exact decide_eq_true h2
    rcases h1 with h1 | h1
    · rw [key, h1, hf]
      rfl
    · rw [key, h1, hf]
      simp only [Bool.not_true, Bool.and_false]
      rfl
  · have hf : isFiftyMoveRule bd = false := by
      unfold isFiftyMoveRule
      simp only [decide_eq_false_iff_not]
      omega
    rw [key, h1, h2, hf]
    rfl
  · have hf : isFiftyMoveRule bd = false := by
      unfold isFiftyMoveRule
      simp only [decide_eq_false_iff_not]
      omega
    rw [key, h1, hf, h3]
    simp only [Bool.not_true, Bool.and_false]
    rfl
  · have hf : isFiftyMoveRule bd = false := by
      unfold isFiftyMoveRule
      simp only [decide_eq_false_iff_not]
      omega
    rw [key, h1, hf, h3, h4]
    simp only [Bool.not_true, Bool.and_false]
    rfl
  · have hf : isFiftyMoveRule bd = false := by
      unfold isFiftyMoveRule
      simp only [decide_eq_false_iff_not]
      omega
    rw [key, h1, hf, h3, h4]
    simp only [Bool.not_true, Bool.and_false]
    rfl

/-- The C5 witness game: the single-state history holding `witBoard`. -/
def witGame1 : ChessGame :=
  ⟨[witBoard]⟩

/-- Witness for C5 at a concrete input: on `witGame1` none of the five
terminal conditions holds (the white king and rook have moves, the clock
is 0, there is one occurrence of the position, and a rook is on the
board), so the game is not over. -/
theorem c5_result_priority_witness : getResult witGame1 = .ok none :=
  ((c5_result_priority witGame1 witBoard true (by decide) (by decide)).2.2.2.2.2.2)
    (by decide) (by decide) (by decide) (by decide)

/-- The grid parsed from the placement field `4k3/8/8/8/8/4P3/8/4K3`: a
white pawn on e3 — not its home rank — with e4 and e5 empty. -/
def c10Grid : List (List (Option Piece)) :=
  [[nn, nn, nn, nn, WK, nn, nn, nn], emptyRank,
   [nn, nn, nn, nn, WP, nn, nn, nn], emptyRank, emptyRank, emptyRank,
   emptyRank, [nn, nn, nn, nn, BK, nn, nn, nn]]

/-- The position around `c10Grid` (white to move). -/
def c10Pos : BoardState :=
  bareBoard c10Grid

/-- The moves offered to the white pawn on e3 of `c10Pos`: the single push
e3-e4 and the two-square push e3-e5. -/
def c10PawnMoves : List Move :=
  [Move.basic ⟨3, 5⟩ ⟨4, 5⟩, Move.basic ⟨3, 5⟩ ⟨5, 5⟩]

/-- C10: every pawn built by `Piece.from_fen` carries an unset has-moved
flag, whatever rank the encoding placed it on; consequently, on the
position parsed from `4k3/8/8/8/8/4P3/8/4K3` (a white pawn on e3, not a
home rank, with e4 and e5 empty), the two-square push e3-e5 is offered
among the pawn's potential moves and among its legal moves. -/
theorem c10_parsed_pawns_unmoved :
    (∀ (c : Char) (p : Piece), Piece.fromFen? c = some p →
      p.ptype = PieceType.pawn → p.hasMoved = false) ∧
    boardFromFen "4k3/8/8/8/8/4P3/8/4K3" = .ok c10Grid ∧
    getPiece c10Pos 3 5 = some ⟨.pawn, true, false⟩ ∧
    Piece.potentialMoves ⟨.pawn, true, false⟩ c10Pos ⟨3, 5⟩ = .ok c10PawnMoves ∧
    Piece.getMoves ⟨.pawn, true, false⟩ c10Pos ⟨3, 5⟩ = .ok c10PawnMoves ∧
    Move.basic ⟨3, 5⟩ ⟨5, 5⟩ ∈ c10PawnMoves := by
  refine ⟨fun c p hfen _hpt => ?_, by decide, by decide, by decide, by decide,
    by decide⟩
  unfold Piece.fromFen? at hfen
  dsimp only at hfen
  split_ifs at hfen <;> cases hfen <;> rfl

/-- Witness for C10 at a concrete input: parsing the encoding character
`p` yields a black pawn whose has-moved flag is unset. -/
theorem c10_parsed_pawns_unmoved_witness :
    ∃ p : Piece, Piece.fromFen? 'p' = some p ∧ p.hasMoved = false :=
  ⟨⟨.pawn, false, false⟩, by decide,
    c10_parsed_pawns_unmoved.1 'p' ⟨.pawn, false, false⟩ (by decide) rfl⟩

/-- Both kings are on the board. -/
def hasBothKings (b : BoardState) : Bool :=
  (findKing b true).isSome && (findKing b false).isSome

/-- No pawn of the side to move stands on its promotion rank (rank 8 for
white, rank 1 for black).  On such a pawn, `Pawn._find_basic_moves` would
call `Coordinate.from_coords` out of range. -/
def noPromotionRankPawn (b : BoardState) : Bool :=
  allCoords.all fun rc =>
    match getPiece b rc.1 rc.2 with
    | some p =>
        !(decide (p.ptype = PieceType.pawn) && decide (p.white = b.turn) &&
          decide (ranksToPromotion p ⟨rc.1, rc.2⟩ = 0))
    | none => true

/-- The stored en-passant target, if any, is a parseable square name, as
`set_en_passant` always stores (`en_passant_coords` raises otherwise). -/
def epWellFormed (b : BoardState) : Bool :=
  match b.enPassantTarget with
  | none => true
  | some s => (Coordinate.ofName? s).isSome


/-- `BasicMove.execute` either succeeds or raises `InvalidMoveException`:
its single `from_coords` (the en-passant midpoint) runs only after both
squares passed `is_valid` and the rows differ by exactly two, which keeps
the midpoint on the board. -/
theorem basicExecute_cases (b : BoardState) (s t : Coordinate) :
    (∃ r, basicExecute b s t = .ok r) ∨ basicExecute b s t = .error .invalidMove := by
  unfold basicExecute
  split
  · exact .inr rfl
  · split
    · exact .inr rfl
    · rename_i hs ht
      split
      · exact .inr rfl
      · rename_i piece hpiece
        split
        · exact .inr rfl
        · rename_i hwhite
          split
          · rename_i e1 he1
            split at he1
            · rename_i tp htp
              split at he1
              · cases he1
                exact .inr rfl
              · cases he1
            · cases he1
          · rename_i wasCapture hwc
            dsimp only
            by_cases hC : decide (piece.ptype = PieceType.pawn) = true ∧

                (s.row - t.row).natAbs = 2
            · rw [if_pos hC]
              cases hmid : Coordinate.fromCoords? ((s.row + t.row) / 2) s.col with
              | none =>
                  exfalso
                  unfold Coordinate.fromCoords? at hmid
                  rw [if_pos ?_] at hmid
                  · cases hmid
                  · simp at hs ht
                    unfold Coordinate.isValid at hs ht
                    simp only [decide_eq_true_eq] at hs ht
                    obtain ⟨-, habs⟩ := hC
                    omega
              | some mid => exact .inl ⟨_, rfl⟩
            · rw [if_neg hC]
              exact .inl ⟨_, rfl⟩

/-- `PawnPromotion.execute` either succeeds or raises
`InvalidMoveException`. -/
theorem promotionExecute_cases (b : BoardState) (s t : Coordinate) (pt : PieceType) :
    (∃ r, promotionExecute b s t pt = .ok r) ∨
      promotionExecute b s t pt = .error .invalidMove := by
  unfold promotionExecute
  split
  · exact .inr rfl
  · split
    · exact .inr rfl
    · rename_i piece hpiece
      split
      · exact .inr rfl
      · split
        · rename_i e1 he1
          split at he1
          · rename_i tp htp
            split at he1
            · cases he1
              exact .inr rfl
            · cases he1
          · cases he1
        · exact .inl ⟨_, rfl⟩

/-- `KingsideCastle.execute` either succeeds or raises
`InvalidMoveException`. -/
theorem kingsideCastleExecute_cases (b : BoardState) (c : Bool) :
    (∃ r, kingsideCastleExecute b c = .ok r) ∨
      kingsideCastleExecute b c = .error .invalidMove := by
  unfold kingsideCastleExecute
  split
  · exact .inr rfl
  · exact .inl ⟨_, rfl⟩

/-- `QueensideCastle.execute` either succeeds or raises
`InvalidMoveException`. -/
theorem queensideCastleExecute_cases (b : BoardState) (c : Bool) :
    (∃ r, queensideCastleExecute b c = .ok r) ∨
      queensideCastleExecute b c = .error .invalidMove := by
  unfold queensideCastleExecute
  split
  · exact .inr rfl
  · exact .inl ⟨_, rfl⟩

/-- With a well-formed stored en-passant string, `en_passant_coords` does
not raise. -/
theorem enPassantCoordsE_ok (b : BoardState) (hep : epWellFormed b = true) :
    ∃ oc, enPassantCoordsE b = .ok oc := by
  unfold epWellFormed at hep
  split at hep
  · rename_i heq
    exact ⟨none, by unfold enPassantCoordsE; rw [heq]⟩
  · rename_i str heq
    cases ho : Coordinate.ofName? str with
    | none =>
        rw [ho] at hep
        simp at hep
    | some cc => exact ⟨some cc, by unfold enPassantCoordsE; rw [heq]; simp [ho]⟩

/-- `EnPassant.execute` either succeeds or raises `InvalidMoveException`,
provided the stored en-passant string is well-formed and the moving pawn
actually attacks the target from a square with an on-board row — the
guards under which `Pawn.potential_moves` generates the move.  The
captured pawn's square is then `(s.row, t.col)`, on the board. -/
theorem enPassantExecute_cases (b : BoardState) (p : Piece) (s t : Coordinate)
    (hp : p.white = b.turn) (hpt : p.ptype = PieceType.pawn)
    (hsr : 1 ≤ s.row ∧ s.row ≤ 8)
    (hatt : p.canAttack b s t = true)
    (hep : epWellFormed b = true) :
    (∃ r, enPassantExecute b s t = .ok r) ∨
      enPassantExecute b s t = .error .invalidMove := by
  unfold enPassantExecute
  split
  · exact .inr rfl
  · rename_i hval
    split
    · rename_i e hoc
      obtain ⟨oc, hoc2⟩ := enPassantCoordsE_ok b hep
      rw [hoc] at hoc2
      cases hoc2
    · rename_i epc hoc
      split
      · exact .inr rfl
      · rename_i hne
        split
        · exact .inr rfl
        · rename_i piece hpg
          split
          · exact .inr rfl
          · rename_i hcls
            dsimp only
            cases hmid : Coordinate.fromCoords?
                (if b.turn = true then t.row - 1 else t.row + 1) t.col with
            | some oc => exact .inl ⟨_, rfl⟩
            | none =>
                exfalso
                unfold Coordinate.fromCoords? at hmid
                rw [if_pos ?_] at hmid
                · cases hmid
                · simp at hval
                  obtain ⟨hsv, htv⟩ := hval
                  unfold Coordinate.isValid at htv
                  simp only [decide_eq_true_eq] at htv
                  unfold Piece.canAttack at hatt
                  rw [hpt] at hatt
                  simp only [Bool.and_eq_true, decide_eq_true_eq] at hatt
                  obtain ⟨hcol, hrow⟩ := hatt
                  unfold pawnDirection at hrow
                  rw [hp] at hrow
                  cases hb : b.turn with
                  | true =>
                      rw [hb] at hrow
                      rw [if_pos rfl]
                      simp at hrow
                      omega
                  | false =>
                      rw [hb] at hrow
                      rw [if_neg (by simp)]
                      simp at hrow
                      omega


/-- The sliding-move walk emits only `BasicMove`s. -/
theorem slideMoves_not_ep (b : BoardState) (w : Bool) (st : Coordinate)
    (dr dc : Int) :
    ∀ (fuel : Nat) (r c : Int) (s' t' : Coordinate),
      Move.enPassant s' t' ∉ slideMoves b w st dr dc fuel r c := by
  intro fuel
  induction fuel with
  | zero =>
      intro r c s' t' h
      simp [slideMoves] at h
  | succ n ih =>
      intro r c s' t' h
      unfold slideMoves at h
      split at h
      · split at h
        · split at h
          · cases h
          · simp at h
        · rcases List.mem_cons.mp h with h | h
          · cases h
          · exact ih _ _ _ _ h
      · cases h

/-- `King.potential_moves` emits only `BasicMove`s and castles. -/
theorem kingPM_not_ep (p : Piece) (b : BoardState) (s : Coordinate) :
    ∀ s' t', Move.enPassant s' t' ∉ kingPotentialMoves p b s := by
  intro s' t' h
  unfold kingPotentialMoves at h
  have hbase : ∀ m ∈ ([(-1, -1), (-1, 0), (-1, 1), (0, -1), (0, 1), (1, -1),
      (1, 0), (1, 1)] : List (Int × Int)).filterMap (fun d =>
        match Coordinate.fromCoords? (s.row + d.1) (s.col + d.2) with
        | some t => some (Move.basic s t)
        | none => none), ∀ s2 t2, m ≠ Move.enPassant s2 t2 := by
    intro m hm s2 t2
    rw [List.mem_filterMap] at hm
    obtain ⟨d, _, hd⟩ := hm
    split at hd
    · cases hd
      intro hc
      cases hc
    · cases hd
  dsimp only at h
  split at h
  · split at h
    · split at h
      · rcases List.mem_append.mp h with h | h
        · rcases List.mem_append.mp h with h | h
          · exact hbase _ h s' t' rfl
          · simp at h
        · simp at h
      · rcases List.mem_append.mp h with h | h
        · exact hbase _ h s' t' rfl
        · simp at h
    · split at h
      · rcases List.mem_append.mp h with h | h
        · exact hbase _ h s' t' rfl
        · simp at h
      · exact hbase _ h s' t' rfl
  · exact hbase _ h s' t' rfl

/-- `Knight.potential_moves` emits only `BasicMove`s. -/
theorem knightPM_not_ep (b : BoardState) (s : Coordinate) :
    ∀ s' t', Move.enPassant s' t' ∉ knightPotentialMoves b s := by
  intro s' t' h
  unfold knightPotentialMoves at h
  rw [List.mem_flatMap] at h
  obtain ⟨rd, _, h⟩ := h
  rw [List.mem_filterMap] at h
  obtain ⟨cd, _, hd⟩ := h
  split at hd
  · split at hd
    · cases hd
    · cases hd
  · cases hd

/-- `Queen.potential_moves` emits only `BasicMove`s. -/
theorem queenPM_not_ep (p : Piece) (b : BoardState) (s : Coordinate) :
    ∀ s' t', Move.enPassant s' t' ∉ queenPotentialMoves p b s := by
  intro s' t' h
  unfold queenPotentialMoves at h
  rw [List.mem_flatMap] at h
  obtain ⟨d, _, h⟩ := h
  exact slideMoves_not_ep b p.white s d.1 d.2 8 _ _ s' t' h

/-- `Rook.potential_moves` emits only `BasicMove`s. -/
theorem rookPM_not_ep (p : Piece) (b : BoardState) (s : Coordinate) :
    ∀ s' t', Move.enPassant s' t' ∉ rookPotentialMoves p b s := by
  intro s' t' h
  unfold rookPotentialMoves at h
  rw [List.mem_flatMap] at h
  obtain ⟨d, _, h⟩ := h
  exact slideMoves_not_ep b p.white s d.1 d.2 8 _ _ s' t' h

/-- `Bishop.potential_moves` emits only `BasicMove`s. -/
theorem bishopPM_not_ep (p : Piece) (b : BoardState) (s : Coordinate) :
    ∀ s' t', Move.enPassant s' t' ∉ bishopPotentialMoves p b s := by
  intro s' t' h
  unfold bishopPotentialMoves at h
  rw [List.mem_flatMap] at h
  obtain ⟨d, _, h⟩ := h
  exact slideMoves_not_ep b p.white s d.1 d.2 8 _ _ s' t' h

/-- `Pawn._all_promotions` emits only `PawnPromotion`s. -/
theorem allPromotions_not_ep (s t : Coordinate) :
    ∀ s' t', Move.enPassant s' t' ∉ allPromotions s t := by
  intro s' t' h
  simp [allPromotions] at h

/-- Every move of the diagonal-capture scan comes from its `mk`. -/
theorem pawnDiagMoves_mem (p : Piece) (b : BoardState) (s : Coordinate)
    (mk : Coordinate → List Move) :
    ∀ m ∈ pawnDiagMoves p b s mk, ∃ t, m ∈ mk t := by
  intro m h
  unfold pawnDiagMoves at h
  rw [List.mem_flatMap] at h
  obtain ⟨cd, _, hm⟩ := h
  split at hm
  · split at hm
    · split at hm
      · exact ⟨_, hm⟩
      · cases hm
    · cases hm
  · cases hm

/-- `Pawn._find_promotions` does not raise once its unguarded
`from_coords` succeeds, and emits no `EnPassant`. -/
theorem pawnFindPromotions_ok (p : Piece) (b : BoardState) (s : Coordinate)
    (h1 : ∃ t1, Coordinate.fromCoords? (s.row + pawnDirection p) s.col = some t1) :
    ∃ l, pawnFindPromotions p b s = .ok l ∧
      ∀ s' t', Move.enPassant s' t' ∉ l := by
  obtain ⟨t1, ht1⟩ := h1
  unfold pawnFindPromotions
  split
  · rename_i heq
    rw [ht1] at heq
    cases heq
  · rename_i t1' heq
    dsimp only
    refine ⟨_, rfl, fun s' t' h => ?_⟩
    rcases List.mem_append.mp h with h | h
    · split at h
      · exact allPromotions_not_ep s t1' s' t' h
      · cases h
    · obtain ⟨t2, h2⟩ := pawnDiagMoves_mem p b s _ _ h
      exact allPromotions_not_ep s t2 s' t' h2

/-- `Pawn._find_basic_moves` does not raise once its two unguarded
`from_coords` calls succeed, and emits no `EnPassant`. -/
theorem pawnFindBasicMoves_ok (p : Piece) (b : BoardState) (s : Coordinate)
    (h1 : ∃ t1, Coordinate.fromCoords? (s.row + pawnDirection p) s.col = some t1)
    (h2 : ∃ t2, Coordinate.fromCoords? (s.row + 2 * pawnDirection p) s.col = some t2) :
    ∃ l, pawnFindBasicMoves p b s = .ok l ∧
      ∀ s' t', Move.enPassant s' t' ∉ l := by
  obtain ⟨t1, ht1⟩ := h1
  obtain ⟨t2, ht2⟩ := h2
  have hdiag : ∀ s' t', Move.enPassant s' t' ∉
      pawnDiagMoves p b s (fun d => [Move.basic s d]) := by
    intro s' t' h
    obtain ⟨t3, h3⟩ := pawnDiagMoves_mem p b s _ _ h
    simp at h3
  unfold pawnFindBasicMoves
  dsimp only
  split
  · rename_i heq
    rw [ht1] at heq
    cases heq
  · rename_i t1' heq
    split
    · split
      · rename_i heq2
        rw [ht2] at heq2
        cases heq2
      · rename_i t2' heq2
        refine ⟨_, rfl, fun s' t' h => ?_⟩
        rcases List.mem_cons.mp h with h | h
        · cases h
        · rcases List.mem_append.mp h with h | h
          · split at h
            · simp at h
            · cases h
          · exact hdiag s' t' h
    · exact ⟨_, rfl, hdiag⟩

/-- `Pawn.potential_moves` does not raise when the pawn stands on a valid
square short of its promotion rank and the stored en-passant string is
well-formed; every `EnPassant` it emits starts at the pawn's square and
is guarded by `can_attack`. -/
theorem pawnPotentialMoves_spec (p : Piece) (b : BoardState) (s : Coordinate)
    (hsr : (1 ≤ s.row ∧ s.row ≤ 8) ∧ 1 ≤ s.col ∧ s.col ≤ 8)
    (hrp : ranksToPromotion p s ≠ 0)
    (hep : epWellFormed b = true) :
    ∃ l, pawnPotentialMoves p b s = .ok l ∧
      ∀ s' t', Move.enPassant s' t' ∈ l →
        s' = s ∧ p.canAttack b s t' = true := by
  have hbase : ∃ base, (if ranksToPromotion p s = 1 then pawnFindPromotions p b s
      else pawnFindBasicMoves p b s) = .ok base ∧
      ∀ s' t', Move.enPassant s' t' ∉ base := by
    split
    · rename_i h1
      apply pawnFindPromotions_ok
      have hc : (1 ≤ s.row + pawnDirection p ∧ s.row + pawnDirection p ≤ 8) ∧
          1 ≤ s.col ∧ s.col ≤ 8 := by
        unfold ranksToPromotion at h1
        unfold pawnDirection
        cases hw : p.white <;> rw [hw] at h1 <;> simp at h1 ⊢ <;> omega
      exact ⟨⟨s.row + pawnDirection p, s.col⟩,
        by unfold Coordinate.fromCoords?; rw [if_pos hc]⟩
    · rename_i h1
      apply pawnFindBasicMoves_ok
      · have hc : (1 ≤ s.row + pawnDirection p ∧ s.row + pawnDirection p ≤ 8) ∧
            1 ≤ s.col ∧ s.col ≤ 8 := by
          unfold ranksToPromotion at h1 hrp
          unfold pawnDirection
          cases hw : p.white <;> rw [hw] at h1 hrp <;> simp at h1 hrp ⊢ <;> omega
        exact ⟨⟨s.row + pawnDirection p, s.col⟩,
          by unfold Coordinate.fromCoords?; rw [if_pos hc]⟩
      · have hc : (1 ≤ s.row + 2 * pawnDirection p ∧ s.row + 2 * pawnDirection p ≤ 8) ∧
            1 ≤ s.col ∧ s.col ≤ 8 := by
          unfold ranksToPromotion at h1 hrp
          unfold pawnDirection
          cases hw : p.white <;> rw [hw] at h1 hrp <;> simp at h1 hrp ⊢ <;> omega
        exact ⟨⟨s.row + 2 * pawnDirection p, s.col⟩,
          by unfold Coordinate.fromCoords?; rw [if_pos hc]⟩
  obtain ⟨base, hb, hnep⟩ := hbase
  unfold pawnPotentialMoves
  split
  · rename_i e heq
    rw [hb] at heq
    cases heq
  · rename_i base' heq
    rw [hb] at heq
    cases heq
    split
    · rename_i e heq2
      obtain ⟨oc, hoc⟩ := enPassantCoordsE_ok b hep
      rw [heq2] at hoc
      cases hoc
    · rename_i ep heq2
      split
      · rename_i hA
        refine ⟨_, rfl, fun s' t' h => ?_⟩
        rcases List.mem_append.mp h with h | h
        · exact absurd h (hnep s' t')
        · rcases List.mem_singleton.mp h with h
          injection h with h1 h2
          subst h1
          subst h2
          exact ⟨rfl, hA⟩
      · rename_i hA
        exact ⟨base, rfl, fun s' t' h => absurd h (hnep s' t')⟩
    · rename_i heq2
      exact ⟨base, rfl, fun s' t' h => absurd h (hnep s' t')⟩

/-- `potential_moves` of any piece on a valid square does not raise (for
a pawn, provided it is short of its promotion rank and the stored
en-passant string is well-formed); every `EnPassant` emitted comes from
a pawn attacking the en-passant square. -/
theorem potentialMoves_spec (p : Piece) (b : BoardState) (s : Coordinate)
    (hsr : (1 ≤ s.row ∧ s.row ≤ 8) ∧ 1 ≤ s.col ∧ s.col ≤ 8)
    (hrp : p.ptype = PieceType.pawn → ranksToPromotion p s ≠ 0)
    (hep : epWellFormed b = true) :
    ∃ l, p.potentialMoves b s = .ok l ∧
      ∀ s' t', Move.enPassant s' t' ∈ l →
        s' = s ∧ p.ptype = PieceType.pawn ∧ p.canAttack b s t' = true := by
  unfold Piece.potentialMoves
  cases hpt : p.ptype with
  | king =>
      exact ⟨_, rfl, fun s' t' h => absurd h (kingPM_not_ep p b s s' t')⟩
  | queen =>
      exact ⟨_, rfl, fun s' t' h => absurd h (queenPM_not_ep p b s s' t')⟩
  | rook =>
      exact ⟨_, rfl, fun s' t' h => absurd h (rookPM_not_ep p b s s' t')⟩
  | bishop =>
      exact ⟨_, rfl, fun s' t' h => absurd h (bishopPM_not_ep p b s s' t')⟩
  | knight =>
      exact ⟨_, rfl, fun s' t' h => absurd h (knightPM_not_ep b s s' t')⟩
  | pawn =>
      obtain ⟨l, hl, hspec⟩ := pawnPotentialMoves_spec p b s hsr (hrp hpt) hep
      exact ⟨l, hl, fun s' t' h => by
        obtain ⟨h1, h2⟩ := hspec s' t' h
        exact ⟨h1, rfl, h2⟩⟩

/-- A fold whose step never fails does not fail. -/
theorem foldlM_ok {ε α β : Type} (f : β → α → Except ε β) (l : List α)
    (h : ∀ acc x, x ∈ l → ∃ y, f acc x = .ok y) :
    ∀ acc, ∃ y, l.foldlM f acc = .ok y := by
  induction l with
  | nil => exact fun acc => ⟨acc, rfl⟩
  | cons x xs ih =>
      intro acc
      obtain ⟨y, hy⟩ := h acc x (List.mem_cons_self x xs)
      rw [List.foldlM_cons, hy]
      simp only [bind, Except.bind]
      exact ih (fun acc' x' hx' => h acc' x' (List.mem_cons_of_mem _ hx')) y

/-- `make_move` either succeeds or raises `InvalidMoveException`,
whenever the underlying `execute` does. -/
theorem makeMove_cases_of_exec (b : BoardState) (m : Move)
    (hx : (∃ r, m.execute b = .ok r) ∨ m.execute b = .error .invalidMove) :
    (∃ b', makeMove b m = .ok b') ∨ makeMove b m = .error .invalidMove := by
  unfold makeMove
  rcases hx with ⟨⟨b1, cap, pa⟩, hr⟩ | hr
  · rw [hr]
    simp only [bind, Except.bind]
    split
    · exact .inl ⟨_, rfl⟩
    · exact .inr rfl
  · rw [hr]
    exact .inr rfl

/-- `Piece.get_moves` does not raise for a piece of the side to move on a
valid square, given no side-to-move pawn sits on its promotion rank
(for the scanned square) and the stored en-passant string is
well-formed: `InvalidMoveException` is caught inside the loop, and no
other exception occurs. -/
theorem getMoves_ok (b : BoardState) (p : Piece) (s : Coordinate)
    (hsr : (1 ≤ s.row ∧ s.row ≤ 8) ∧ 1 ≤ s.col ∧ s.col ≤ 8)
    (hp : p.white = b.turn)
    (hrp : p.ptype = PieceType.pawn → ranksToPromotion p s ≠ 0)
    (hep : epWellFormed b = true) :
    ∃ ms, p.getMoves b s = .ok ms := by
  obtain ⟨l, hl, hspec⟩ := potentialMoves_spec p b s hsr hrp hep
  unfold Piece.getMoves
  rw [hl]
  simp only [bind, Except.bind]
  apply foldlM_ok
  intro acc m hm
  unfold getMovesStep
  have hmk : (∃ b', makeMove b m = .ok b') ∨ makeMove b m = .error .invalidMove := by
    apply makeMove_cases_of_exec
    cases m with
    | basic s' t' => exact basicExecute_cases b s' t'
    | kingsideCastle c => exact kingsideCastleExecute_cases b c
    | queensideCastle c => exact queensideCastleExecute_cases b c
    | pawnPromotion s' t' pt => exact promotionExecute_cases b s' t' pt
    | enPassant s' t' =>
        obtain ⟨hs', hpt, hatt⟩ := hspec s' t' hm
        subst hs'
        exact enPassantExecute_cases b p s' t' hp hpt ⟨hsr.1.1, hsr.1.2⟩ hatt hep
  rcases hmk with ⟨b', hb'⟩ | hb'
  · rw [hb']
    exact ⟨_, rfl⟩
  · rw [hb']
    exact ⟨_, rfl⟩

/-- Every coordinate of the 8×8 scan is on the board. -/
theorem allCoords_bounds (rc : Int × Int) (h : rc ∈ allCoords) :
    (1 ≤ rc.1 ∧ rc.1 ≤ 8) ∧ 1 ≤ rc.2 ∧ rc.2 ≤ 8 := by
  have hall : allCoords.all
      (fun rc => decide ((1 ≤ rc.1 ∧ rc.1 ≤ 8) ∧ 1 ≤ rc.2 ∧ rc.2 ≤ 8)) = true := by
    decide
  have := List.all_eq_true.mp hall rc h
  rwa [decide_eq_true_eq] at this

/-- Reading the `noPromotionRankPawn` guarantee at one square. -/
theorem noPromotionRankPawn_spec (b : BoardState)
    (hnp : noPromotionRankPawn b = true) (rc : Int × Int) (hrc : rc ∈ allCoords)
    (p : Piece) (hg : getPiece b rc.1 rc.2 = some p)
    (hw : p.white = b.turn) (hpt : p.ptype = PieceType.pawn) :
    ranksToPromotion p ⟨rc.1, rc.2⟩ ≠ 0 := by
  unfold noPromotionRankPawn at hnp
  rw [List.all_eq_true] at hnp
  have hx := hnp rc hrc
  rw [hg] at hx
  simp only [Bool.not_eq_true', Bool.and_eq_false_iff, decide_eq_false_iff_not] at hx
  rcases hx with (hx | hx) | hx
  · exact absurd hpt hx
  · exact absurd hw hx
  · exact hx

/-- `moves_with_target` does not raise under the two position-shape
guarantees. -/
theorem movesWithTarget_ok (b : BoardState) (target : Coordinate)
    (classinfo : Option PieceType)
    (hnp : noPromotionRankPawn b = true) (hep : epWellFormed b = true) :
    ∃ l, movesWithTarget b target classinfo = .ok l := by
  unfold movesWithTarget
  apply foldlM_ok
  intro acc rc hrc
  unfold movesWithTargetStep
  split
  · rename_i p hg
    split
    · rename_i hcond
      obtain ⟨ms, hms⟩ := getMoves_ok b p ⟨rc.1, rc.2⟩ (allCoords_bounds rc hrc)
        hcond.1 (fun hpt => noPromotionRankPawn_spec b hnp rc hrc p hg hcond.1 hpt) hep
      rw [hms]
      exact ⟨_, rfl⟩
    · exact ⟨_, rfl⟩
  · exact ⟨_, rfl⟩

/-- `_process_match` does not raise under the two position-shape
guarantees. -/
theorem processMatch_ok (b : BoardState) (target : Coordinate) (pt : PieceType)
    (rr rc : Option Int)
    (hnp : noPromotionRankPawn b = true) (hep : epWellFormed b = true) :
    ∃ r, processMatch b target pt rr rc = .ok r := by
  obtain ⟨l, hl⟩ := movesWithTarget_ok b target (some pt) hnp hep
  unfold processMatch
  split
  · rename_i e heq
    rw [hl] at heq
    cases heq
  · rename_i cand heq
    rw [hl] at heq
    cases heq
    dsimp only
    split
    · exact ⟨_, rfl⟩
    · exact ⟨_, rfl⟩

/-- `_process_promotion_match` does not raise under the two
position-shape guarantees. -/
theorem processPromotionMatch_ok (b : BoardState) (target : Coordinate)
    (pt : PieceType) (rc : Option Int)
    (hnp : noPromotionRankPawn b = true) (hep : epWellFormed b = true) :
    ∃ r, processPromotionMatch b target pt rc = .ok r := by
  obtain ⟨l, hl⟩ := movesWithTarget_ok b target (some PieceType.pawn) hnp hep
  unfold processPromotionMatch
  split
  · rename_i e heq
    rw [hl] at heq
    cases heq
  · rename_i cand heq
    rw [hl] at heq
    cases heq
    dsimp only
    split
    · exact ⟨_, rfl⟩
    · exact ⟨_, rfl⟩

/-- Patterns 3-10 of `parse_move` do not raise under the two
position-shape guarantees. -/
theorem parseMoveTail_ok (b : BoardState) (t : List Char)
    (hnp : noPromotionRankPawn b = true) (hep : epWellFormed b = true) :
    ∃ r, parseMoveTail b t = .ok r := by
  unfold parseMoveTail
  split
  · exact processMatch_ok _ _ _ _ _ hnp hep
  · split
    · exact processMatch_ok _ _ _ _ _ hnp hep
    · split
      · exact processPromotionMatch_ok _ _ _ _ hnp hep
      · split
        · exact processPromotionMatch_ok _ _ _ _ hnp hep
        · split
          · exact processMatch_ok _ _ _ _ _ hnp hep
          · split
            · exact processMatch_ok _ _ _ _ _ hnp hep
            · split
              · exact processMatch_ok _ _ _ _ _ hnp hep
              · split
                · exact processMatch_ok _ _ _ _ _ hnp hep
                · exact ⟨_, rfl⟩

/-- C8, amended.  The claim as stated is false (see
`c8_parse_move_raises`): a position may hold a side-to-move pawn on its
promotion rank, or a malformed stored en-passant string, and then
`parse_move` raises `InvalidCoordinateError` out of
`Pawn.potential_moves` / `en_passant_coords`.  Under the two extra
hypotheses ruling those out — with both kings on the board as the claim
already demanded — `parse_move` returns a `Move` or `None` for every
input string and never raises, and whenever the disambiguation filter
of `_process_match` keeps zero or several candidate moves the result is
the absent `None`. -/
theorem c8_amended_no_raise (b : BoardState)
    (_hk : hasBothKings b = true)
    (hnp : noPromotionRankPawn b = true)
    (hep : epWellFormed b = true) :
    (∀ s : String, ∃ r : Option Move, parseMove b s = .ok r) ∧
    (∀ (target : Coordinate) (pt : PieceType) (rr rc : Option Int) (ms : List Move),
      movesWithTarget b target (some pt) = .ok ms →
      (ms.filter fun m =>
        (match rr with
         | none => true
         | some r => decide (m.start.row = r)) &&
        (match rc with
         | none => true
         | some c => decide (m.start.col = c))).length ≠ 1 →
      processMatch b target pt rr rc = .ok none) := by
  constructor
  · intro s
    unfold parseMove
    dsimp only
    split
    · exact ⟨_, rfl⟩
    · split
      · exact ⟨_, rfl⟩
      · split
        · split
          · exact ⟨_, rfl⟩
          · exact ⟨_, rfl⟩
        · split
          · split
            · exact ⟨_, rfl⟩
            · exact parseMoveTail_ok b _ hnp hep
          · exact parseMoveTail_ok b _ hnp hep
  · intro target pt rr rc ms hms hlen
    unfold processMatch
    split
    · rename_i e heq
      rw [hms] at heq
      cases heq
    · rename_i cand heq
      rw [hms] at heq
      cases heq
      dsimp only
      split
      · rename_i m heq2
        rw [heq2] at hlen
        simp at hlen
      · rfl

/-- A position with both kings (e1, e8) but a white pawn on a8, its
promotion rank, with white to move. -/
def c8BadPos : BoardState :=
  bareBoard [[nn, nn, nn, nn, WK, nn, nn, nn], emptyRank, emptyRank, emptyRank,
    emptyRank, emptyRank, emptyRank, [WP, nn, nn, nn, BK, nn, nn, nn]]

/-- C8 as stated is false: on `c8BadPos` — a position containing a king of
each color — parsing the input `a3` raises `InvalidCoordinateError`
(from the unguarded `from_coords` in `Pawn._find_basic_moves`, reached
while `moves_with_target` enumerates the a8 pawn's moves) instead of
returning a move or the absent result. -/
theorem c8_parse_move_raises :
    hasBothKings c8BadPos = true ∧
    parseMove c8BadPos "a3" = .error .invalidCoord := by
  decide

/-- Witness for the amended C8 at a concrete input: the initial position
satisfies the hypotheses, so parsing `e4` there returns without raising. -/
theorem c8_amended_no_raise_witness :
    ∃ r : Option Move, parseMove initialBoard "e4" = .ok r :=
  (c8_amended_no_raise initialBoard (by decide) (by decide) (by decide)).1 "e4"

end Chess
